import Mathlib

/-!
# A static-file HTTP handler: embedding of `src/main.cpp`

`get_content_type` and `handle_client` are embedded as pure functions.
Strings are lists of characters (one character per byte).  The socket and
the filesystem are oracles passed as arguments, and a run of
`handle_client` is the list of externally visible actions it performs.
-/

namespace HttpServer

/-- Byte strings (`std::string`, `char[]`). -/
abbrev Bytes := List Char

/-- `#define BUFFER_SIZE 1024`. -/
def BUFFER_SIZE : Nat := 1024

/-- `const size_t CHUNK_SIZE = 4096;`. -/
def CHUNK_SIZE : Nat := 4096

/-! ## Content-type resolver -/

/-- `std::tolower` in the "C" locale (the program never calls `setlocale`):
`A`..`Z` are moved to `a`..`z`, every other byte is unchanged. -/
def tolower (c : Char) : Char :=
  if 65 ≤ c.toNat ∧ c.toNat ≤ 90 then Char.ofNat (c.toNat + 32) else c

/-- `std::string::rfind(char)`: index of the last occurrence, `none` for `npos`. -/
def rfind : Bytes → Char → Option Nat
  | [], _ => none
  | x :: rest, c =>
    match rfind rest c with
    | some i => some (i + 1)
    | none => if x = c then some 0 else none

/-- `std::string::find(char)`: index of the first occurrence, `none` for `npos`. -/
def find : Bytes → Char → Option Nat
  | [], _ => none
  | x :: rest, c =>
    if x = c then some 0
    else match find rest c with
      | some i => some (i + 1)
      | none => none

/-- `get_content_type` (main.cpp lines 17-60). -/
def get_content_type (path : Bytes) : Bytes :=
  match rfind path '.' with
  | some dot_pos =>
    let ext := (path.drop dot_pos).map tolower
    if ext = ".html".toList ∨ ext = ".htm".toList then "text/html".toList
    else if ext = ".json".toList then "application/json".toList
    else if ext = ".js".toList then "application/javascript".toList
    else if ext = ".css".toList then "text/css".toList
    else if ext = ".gif".toList then "image/gif".toList
    else if ext = ".png".toList then "image/png".toList
    else if ext = ".jpg".toList ∨ ext = ".jpeg".toList then "image/jpeg".toList
    else if ext = ".txt".toList then "text/plain".toList
    else if ext = ".svg".toList then "image/svg+xml".toList
    else if ext = ".ico".toList then "image/x-icon".toList
    else if ext = ".pdf".toList then "application/pdf".toList
    else if ext = ".zip".toList then "application/zip".toList
    else if ext = ".tar".toList then "application/x-tar".toList
    else if ext = ".gz".toList then "application/gzip".toList
    else if ext = ".mp4".toList then "video/mp4".toList
    else if ext = ".mp3".toList then "audio/mpeg".toList
    else if ext = ".wav".toList then "audio/wav".toList
    else "application/octet-stream".toList
  | none => "application/octet-stream".toList

/-! ## Environment of one connection -/

/-- An opened `std::ifstream`: what `tellg()` reports after `seekg(0, end)`
and the bytes that successive `read` calls deliver. -/
structure Stream where
  tellg_end : Int
  data : Bytes
  deriving DecidableEq

/-- A regular file: the position at the end is the number of bytes. -/
def Stream.regular (f : Stream) : Prop := f.tellg_end = (f.data.length : Int)

/-- The filesystem as seen by the handler. `is_dir path` is
`stat(path) == 0 && S_ISDIR(st_mode)`; `open_file path` is the stream of
`std::ifstream file(path, std::ios::binary)`, `none` when `!file`. -/
structure FileSystem where
  is_dir : Bytes → Bool
  open_file : Bytes → Option Stream

/-- Results of `send` on the client socket: the value returned by the call
number `i` (counted from 0 on this connection) when offered `data`. -/
abbrev SendOracle := Nat → Bytes → Int

/-- Externally visible actions of `handle_client`. The log line is recorded
by its request fields, status and byte count (peer address and local time
are not modelled). -/
inductive Event where
  | stat (path : Bytes)
  | open_file (path : Bytes)
  | log (method path http_version : Bytes) (status : Nat) (size : Int)
  | send (data : Bytes) (result : Int)
  | close_file
  | close
  deriving DecidableEq

/-! ## Request parsing -/

/-- Whitespace of `operator>>` in the "C" locale (`std::isspace`). -/
def isspace (c : Char) : Bool :=
  c = ' ' || c = '\t' || c = '\n' || c = '\x0b' || c = '\x0c' || c = '\r'

/-- The C string held by `buffer`: the bytes before the first NUL. -/
def c_str (buffer : Bytes) : Bytes := buffer.takeWhile (fun c => c != '\x00')

/-- One `request_stream >> word`: skip leading whitespace, then take the
characters up to the next whitespace. Returns the word and the rest of the
stream. At end of input the word is empty and the stream stays exhausted,
which is what the failed stream state gives to the later extractions. -/
def extract (stream : Bytes) : Bytes × Bytes :=
  let s := stream.dropWhile isspace
  (s.takeWhile (fun c => !isspace c), s.dropWhile (fun c => !isspace c))

/-- The three fields of the request. -/
structure Request where
  method : Bytes
  path : Bytes
  http_version : Bytes
  deriving DecidableEq

/-- `request_stream >> method >> path >> http_version` (main.cpp lines 71-73). -/
def parse_request (stream : Bytes) : Request :=
  let (method, s1) := extract stream
  let (path, s2) := extract s1
  let (http_version, _) := extract s2
  { method := method, path := path, http_version := http_version }

/-! ## Path handling -/

/-- `while (!path.empty() && path[0] == '/') path.erase(0, 1);`. -/
def strip_leading_slashes : Bytes → Bytes
  | [] => []
  | c :: rest => if c = '/' then strip_leading_slashes rest else c :: rest

/-- Cut `path` at the first `c` when there is one (`find` then `substr(0, pos)`). -/
def cut_at (path : Bytes) (c : Char) : Bytes :=
  match find path c with
  | some pos => path.take pos
  | none => path

/-- Lines 95-108: strip the query, then the fragment, then leading slashes. -/
def sanitize (target : Bytes) : Bytes :=
  strip_leading_slashes (cut_at (cut_at target '?') '#')

/-- `!path.empty() && path.back() != '/'`. -/
def no_trailing_slash (path : Bytes) : Bool :=
  !path.isEmpty && path.getLast? != some '/'

/-- Lines 130-133: append `index.html` to an empty path or one ending in `/`. -/
def index_substitute (path : Bytes) : Bytes :=
  if path.isEmpty || path.getLast? == some '/' then path ++ "index.html".toList else path

/-- `path.find("..") != std::string::npos`. -/
def has_dotdot : Bytes → Bool
  | [] => false
  | c :: rest =>
    match rest with
    | [] => false
    | d :: _ => (c = '.' && d = '.') || has_dotdot rest

/-! ## Responses -/

/-- Decimal text of a stream position, as `operator<<` prints it. -/
def show_int (n : Int) : Bytes :=
  if n < 0 then '-' :: Nat.toDigits 10 n.natAbs else Nat.toDigits 10 n.natAbs

def response_405 : Bytes :=
  "HTTP/1.1 405 Method Not Allowed\r\nContent-Length: 0\r\n\r\n".toList

def response_301 (path : Bytes) : Bytes :=
  "HTTP/1.1 301 Moved Permanently\r\n".toList ++ "Location: ".toList
    ++ ("/".toList ++ path ++ "/".toList) ++ "\r\n".toList
    ++ "Content-Length: 0\r\n\r\n".toList

def response_403 : Bytes :=
  "HTTP/1.1 403 Forbidden\r\nContent-Length: 0\r\n\r\n".toList

def response_404 : Bytes :=
  "HTTP/1.1 404 Not Found\r\nContent-Length: 0\r\n\r\n".toList

def response_204 : Bytes :=
  ("HTTP/1.1 204 No Content\r\nAllow: GET, OPTIONS\r\n"
    ++ "Access-Control-Allow-Origin: *\r\n"
    ++ "Access-Control-Allow-Methods: GET, OPTIONS\r\n\r\n").toList

def header_200 (file_size : Int) (content_type : Bytes) : Bytes :=
  "HTTP/1.1 200 OK\r\n".toList
    ++ "Content-Length: ".toList ++ show_int file_size ++ "\r\n".toList
    ++ "Content-Type: ".toList ++ content_type ++ "\r\n".toList
    ++ "\r\n".toList

/-! ## Streaming loop (main.cpp lines 186-203) -/

/-- The inner `while (sent_total < bytes)` loop on one chunk. `i` is the
number of `send` calls made so far on the connection; the result is the
`send` events and the number of calls after the loop. A non-positive result
leaves the loop (`break`). `fuel` bounds the iterations; `chunk.length`
is always enough (`send_chunk_fuel`). -/
def send_chunk (send : SendOracle) : Nat → Nat → Bytes → Nat → List Event × Nat
  | 0, i, _, _ => ([], i)
  | fuel + 1, i, chunk, sent_total =>
    if sent_total < chunk.length then
      let offered := chunk.drop sent_total
      let sent := send i offered
      if sent ≤ 0 then ([Event.send offered sent], i + 1)
      else
        let r := send_chunk send fuel (i + 1) chunk (sent_total + sent.toNat)
        (Event.send offered sent :: r.1, r.2)
    else ([], i)

/-- The outer `while (file)` loop. `rest` is what the file still holds.
`file.read` delivers up to `CHUNK_SIZE` bytes; when it delivers fewer it has
hit the end of the file and the stream is no longer good, so the loop ends
after this chunk. The `break` of the inner loop does not leave this loop. -/
def stream_loop (send : SendOracle) : Nat → Nat → Bytes → List Event × Nat
  | 0, i, _ => ([], i)
  | fuel + 1, i, rest =>
    let chunk := rest.take CHUNK_SIZE
    let bytes := chunk.length
    let r := if 0 < bytes then send_chunk send bytes i chunk 0 else ([], i)
    if bytes < CHUNK_SIZE then r
    else
      let r2 := stream_loop send fuel r.2 (rest.drop CHUNK_SIZE)
      (r.1 ++ r2.1, r2.2)

/-- The streaming loop run on a whole file, `i` sends having been made before. -/
def stream_file (send : SendOracle) (i : Nat) (data : Bytes) : List Event :=
  (stream_loop send (data.length / CHUNK_SIZE + 1) i data).1

/-! ## Connection handler (main.cpp lines 62-208) -/

def GET : Bytes := "GET".toList
def OPTIONS : Bytes := "OPTIONS".toList

/-- The `stat` call of the redirect check (line 114), made when the path is
non-empty and does not end in `/`. -/
def probe (path : Bytes) : List Event :=
  if no_trailing_slash path then [Event.stat path] else []

/-- The handler from the method gate on (lines 85-208). -/
def respond (fs : FileSystem) (send : SendOracle) (method target http_version : Bytes) :
    List Event :=
  if method ≠ GET ∧ method ≠ OPTIONS then
    [Event.log method target http_version 405 0,
     Event.send response_405 (send 0 response_405), Event.close]
  else
    let path := sanitize target
    if no_trailing_slash path && fs.is_dir path then
      [Event.stat path, Event.send (response_301 path) (send 0 (response_301 path)),
       Event.log method target http_version 301 0, Event.close]
    else
      let stat_call := probe path
      let path := index_substitute path
      if has_dotdot path then
        stat_call ++ [Event.log method target http_version 403 0,
          Event.send response_403 (send 0 response_403), Event.close]
      else
        match fs.open_file path with
        | none =>
          stat_call ++ [Event.open_file path, Event.log method target http_version 404 0,
            Event.send response_404 (send 0 response_404), Event.close]
        | some file =>
          if method = OPTIONS then
            stat_call ++ [Event.open_file path, Event.log method target http_version 204 0,
              Event.send response_204 (send 0 response_204), Event.close, Event.close_file]
          else
            let file_size := file.tellg_end
            let header := header_200 file_size (get_content_type path)
            stat_call ++ [Event.open_file path,
              Event.log method target http_version 200 file_size,
              Event.send header (send 0 header)]
              ++ stream_file send 1 file.data ++ [Event.close_file, Event.close]

/-- The request held by `buffer` after `read(client_socket, buffer, BUFFER_SIZE - 1)`
stored `received` in it (lines 63-73). -/
def read_request (received : Bytes) : Request :=
  parse_request (c_str (received.take (BUFFER_SIZE - 1)))

/-- `handle_client`: `bytes_read` is the value returned by `read` and
`received` the bytes it stored in the zeroed `buffer` (at most
`BUFFER_SIZE - 1` of them are kept). -/
def handle_client (fs : FileSystem) (send : SendOracle) (bytes_read : Int)
    (received : Bytes) : List Event :=
  if bytes_read ≤ 0 then [Event.close]
  else
    let request := read_request received
    respond fs send request.method request.path request.http_version

/-! ## Reading a run -/

/-- The byte strings handed to `send`, in order. -/
def sent : List Event → List Bytes
  | [] => []
  | Event.send data _ :: rest => data :: sent rest
  | _ :: rest => sent rest

/-- The bytes the socket took: of each `send`, as many bytes as it returned. -/
def accepted : List Event → Bytes
  | [] => []
  | Event.send data result :: rest => data.take result.toNat ++ accepted rest
  | _ :: rest => accepted rest

/-- The filesystem lookups of a run (`stat` and file opens), in order. -/
def lookups : List Event → List Event
  | [] => []
  | Event.stat p :: rest => Event.stat p :: lookups rest
  | Event.open_file p :: rest => Event.open_file p :: lookups rest
  | _ :: rest => lookups rest

/-- A filesystem with no directory and no file that opens. -/
def empty_fs : FileSystem := { is_dir := fun _ => false, open_file := fun _ => none }

/-- A socket that takes every byte offered. -/
def send_all : SendOracle := fun _ data => (data.length : Int)

/-- The parent of the working directory and a directory `a` in it; no file
that opens. -/
def parent_dir_fs : FileSystem :=
  { is_dir := fun p => decide (p = "..".toList ∨ p = "a".toList ∨ p = "a/..".toList),
    open_file := fun _ => none }

/-- One regular five-byte file named `a..b`, no directory. -/
def dotted_name_fs : FileSystem :=
  { is_dir := fun _ => false,
    open_file := fun p =>
      if p = "a..b".toList then some { tellg_end := 5, data := "hello".toList } else none }

/-- One directory `docs`, no file that opens. -/
def docs_fs : FileSystem :=
  { is_dir := fun p => decide (p = "docs".toList), open_file := fun _ => none }

/-- One regular 50-byte file `index.html`, no directory. -/
def index_fs : FileSystem :=
  { is_dir := fun _ => false,
    open_file := fun p =>
      if p = "index.html".toList then
        some { tellg_end := 50, data := List.replicate 50 'x' }
      else none }

instance (f : Stream) : Decidable f.regular := by
  unfold Stream.regular
  infer_instance

/-- A socket that takes one byte per call. -/
def send_one : SendOracle := fun _ _ => 1

/-- A socket whose every result is positive and within what was offered,
whenever something is offered. -/
def well_behaved (send : SendOracle) : Prop :=
  ∀ (i : Nat) (offered : Bytes), offered ≠ [] →
    0 < send i offered ∧ send i offered ≤ (offered.length : Int)

/-- The extension table as the specification lists it (section 4.1):
19 extensions, each with its MIME type. -/
def mime_table : List (Bytes × Bytes) :=
  [(".html".toList, "text/html".toList),
   (".htm".toList, "text/html".toList),
   (".json".toList, "application/json".toList),
   (".js".toList, "application/javascript".toList),
   (".css".toList, "text/css".toList),
   (".gif".toList, "image/gif".toList),
   (".png".toList, "image/png".toList),
   (".jpg".toList, "image/jpeg".toList),
   (".jpeg".toList, "image/jpeg".toList),
   (".txt".toList, "text/plain".toList),
   (".svg".toList, "image/svg+xml".toList),
   (".ico".toList, "image/x-icon".toList),
   (".pdf".toList, "application/pdf".toList),
   (".zip".toList, "application/zip".toList),
   (".tar".toList, "application/x-tar".toList),
   (".gz".toList, "application/gzip".toList),
   (".mp4".toList, "video/mp4".toList),
   (".mp3".toList, "audio/mpeg".toList),
   (".wav".toList, "audio/wav".toList)]

/-- The type the specification's table gives to an extension, with the
fallback `application/octet-stream` for an extension it does not list. -/
def table_type (ext : Bytes) : Bytes :=
  (mime_table.lookup ext).getD "application/octet-stream".toList

/-- A run with its log lines left out. -/
def without_log : List Event → List Event
  | [] => []
  | Event.log _ _ _ _ _ :: rest => without_log rest
  | e :: rest => e :: without_log rest

/-- One regular three-byte file `a.html`, no directory. -/
def page_fs : FileSystem :=
  { is_dir := fun _ => false,
    open_file := fun p =>
      if p = "a.html".toList then some { tellg_end := 3, data := "abc".toList } else none }

/-- The whitespace-separated tokens of a byte string, as the specification
words the parse: split at every whitespace character, empty pieces dropped. -/
def tokens (stream : Bytes) : List Bytes :=
  (stream.splitOnP isspace).filter (fun w => !w.isEmpty)

/-- The first line of the bytes read: what precedes the first line feed. -/
def first_line (received : Bytes) : Bytes := received.takeWhile (fun c => c != '\n')

/-- The log lines of a run, each as its status and byte count, in order. -/
def logs : List Event → List (Nat × Int)
  | [] => []
  | Event.log _ _ _ status size :: rest => (status, size) :: logs rest
  | _ :: rest => logs rest

/-- The `send` calls among the events. -/
def is_send : Event → Bool
  | Event.send _ _ => true
  | _ => false

/-- Actions on the client socket: `send` and `close`. -/
def on_connection : Event → Bool
  | Event.send _ _ => true
  | Event.close => true
  | _ => false

/-- The actions of a run on the client socket, in order. -/
def connection_actions (run : List Event) : List Event := run.filter on_connection

/-- The six responses of the handler, recognised by their status line and
headers: 405, 301, 403, 404, 204, and the header block of 200. -/
def is_status_response (response : Bytes) : Prop :=
  response = response_405 ∨ (∃ path, response = response_301 path)
    ∨ response = response_403 ∨ response = response_404 ∨ response = response_204
    ∨ ∃ (file_size : Int) (content_type : Bytes), response = header_200 file_size content_type

/-- A directory named `v1..2` holding a three-byte `index.html` that opens. -/
def dotted_dir_fs : FileSystem :=
  { is_dir := fun p => decide (p = "v1..2".toList),
    open_file := fun p =>
      if p = "v1..2/index.html".toList then some { tellg_end := 3, data := "abc".toList }
      else none }

/-- What follows the first `send` of a run: after the status line and
headers, the part of the run that carries the body. -/
def after_first_send : List Event → List Event
  | [] => []
  | Event.send _ _ :: rest => rest
  | _ :: rest => after_first_send rest

/-- The streaming part of a run that serves `body`, empty when there is no body. -/
def body_events (send : SendOracle) : Option Bytes → List Event
  | some data => stream_file send 1 data
  | none => []

/-- A socket whose call number 1 (the first `send` of the body) reports
failure with -1 and which takes everything offered on the other calls. -/
def send_fail_first_body : SendOracle :=
  fun i data => if i = 1 then -1 else (data.length : Int)

/-- One regular file `big` of 4100 bytes: a full chunk and four more bytes. -/
def big_fs : FileSystem :=
  { is_dir := fun _ => false,
    open_file := fun p =>
      if p = "big".toList then
        some { tellg_end := 4100, data := List.replicate 4096 'a' ++ "tail".toList }
      else none }

/-- `std::string new_location = "/" + path + "/";` (line 116), the value of
the `Location` header in `response_301`. -/
def new_location (path : Bytes) : Bytes := "/".toList ++ path ++ "/".toList

/-- One directory `host/dir`, no file that opens. -/
def host_dir_fs : FileSystem :=
  { is_dir := fun p => decide (p = "host/dir".toList), open_file := fun _ => none }

/-- The outer `while (file)` loop of `stream_loop` with a counter of its
iterations, one `file.read` call each. The first component is the run of
`stream_loop` (`stream_loop_reads_fst`). -/
def stream_loop_reads (send : SendOracle) : Nat → Nat → Bytes → (List Event × Nat) × Nat
  | 0, i, _ => (([], i), 0)
  | fuel + 1, i, rest =>
    let chunk := rest.take CHUNK_SIZE
    let bytes := chunk.length
    let r := if 0 < bytes then send_chunk send bytes i chunk 0 else ([], i)
    if bytes < CHUNK_SIZE then (r, 1)
    else
      let r2 := stream_loop_reads send fuel r.2 (rest.drop CHUNK_SIZE)
      ((r.1 ++ r2.1.1, r2.1.2), r2.2 + 1)

/-- A named pipe `pipe`: it opens, but `seekg` fails on it, so `tellg`
reports -1 and the failed stream gives the read loop no byte. -/
def pipe_fs : FileSystem :=
  { is_dir := fun _ => false,
    open_file := fun p =>
      if p = "pipe".toList then some { tellg_end := -1, data := [] } else none }

/-! ## Theorems -/

/-- C1 (code at the failing input): the targets `/..` and `/a/..` sanitize to
paths that contain the substring `..`, yet where these are directories the
handler calls `stat` on them and answers 301 (`Location: /../`), not 403;
403 is what the same request gets where `stat` finds no directory. -/
theorem dotdot_directory_is_redirected :
    has_dotdot (index_substitute (sanitize "/..".toList)) = true
    ∧ handle_client parent_dir_fs send_all 20 "GET /.. HTTP/1.1\r\n\r\n".toList
      = [Event.stat "..".toList,
         Event.send
           "HTTP/1.1 301 Moved Permanently\r\nLocation: /../\r\nContent-Length: 0\r\n\r\n".toList
           69,
         Event.log "GET".toList "/..".toList "HTTP/1.1".toList 301 0,
         Event.close]
    ∧ sent (handle_client parent_dir_fs send_all 20 "GET /.. HTTP/1.1\r\n\r\n".toList)
      ≠ [response_403]
    ∧ has_dotdot (index_substitute (sanitize "/a/..".toList)) = true
    ∧ sent (handle_client parent_dir_fs send_all 26 "OPTIONS /a/.. HTTP/1.1\r\n\r\n".toList)
      = ["HTTP/1.1 301 Moved Permanently\r\nLocation: /a/../\r\nContent-Length: 0\r\n\r\n".toList]
    ∧ sent (handle_client empty_fs send_all 20 "GET /.. HTTP/1.1\r\n\r\n".toList)
      = [response_403] := by
  decide

/-- C2: when the parsed method is neither `GET` nor `OPTIONS`, the run is
exactly: log 405 with byte count 0, one `send` of the 405 response, close.
No `stat` and no file open happens, whatever the target and the filesystem. -/
theorem method_not_allowed (fs : FileSystem) (send : SendOracle) (bytes_read : Int)
    (received : Bytes) (hread : 0 < bytes_read)
    (hget : (read_request received).method ≠ "GET".toList)
    (hopt : (read_request received).method ≠ "OPTIONS".toList) :
    handle_client fs send bytes_read received
      = [Event.log (read_request received).method (read_request received).path
           (read_request received).http_version 405 0,
         Event.send "HTTP/1.1 405 Method Not Allowed\r\nContent-Length: 0\r\n\r\n".toList
           (send 0 "HTTP/1.1 405 Method Not Allowed\r\nContent-Length: 0\r\n\r\n".toList),
         Event.close]
    ∧ sent (handle_client fs send bytes_read received)
      = ["HTTP/1.1 405 Method Not Allowed\r\nContent-Length: 0\r\n\r\n".toList]
    ∧ lookups (handle_client fs send bytes_read received) = [] := by
  have hrun : handle_client fs send bytes_read received
      = [Event.log (read_request received).method (read_request received).path
           (read_request received).http_version 405 0,
         Event.send response_405 (send 0 response_405), Event.close] := by
    unfold handle_client respond
    rw [if_neg (not_le.mpr hread)]
    exact if_pos ⟨hget, hopt⟩
  rw [hrun]
  exact ⟨rfl, rfl, rfl⟩

/-- Witness of C2 at the lower-case method `get`. -/
theorem method_not_allowed_witness :
    sent (handle_client dotted_name_fs send_all 16 "get /a..b HTTP/1.1\r\n".toList)
      = ["HTTP/1.1 405 Method Not Allowed\r\nContent-Length: 0\r\n\r\n".toList]
    ∧ lookups (handle_client dotted_name_fs send_all 16 "get /a..b HTTP/1.1\r\n".toList) = [] :=
  (method_not_allowed dotted_name_fs send_all 16 "get /a..b HTTP/1.1\r\n".toList
    (by decide) (by decide) (by decide)).2

/-- The 301 response, written out. -/
theorem response_301_eq (path : Bytes) :
    response_301 path
      = "HTTP/1.1 301 Moved Permanently\r\nLocation: /".toList ++ path
          ++ "/\r\nContent-Length: 0\r\n\r\n".toList := by
  simp only [response_301, List.append_assoc]
  rfl

/-- The 200 header of a file of `n` bytes, written out. -/
theorem header_200_eq (n : Nat) (content_type : Bytes) :
    header_200 (n : Int) content_type
      = "HTTP/1.1 200 OK\r\nContent-Length: ".toList ++ Nat.toDigits 10 n
          ++ "\r\nContent-Type: ".toList ++ content_type ++ "\r\n\r\n".toList := by
  have hneg : ¬ ((n : Int) < 0) := by omega
  simp only [header_200, show_int, if_neg hneg, Int.natAbs_ofNat, List.append_assoc]
  rfl

theorem sent_append (a b : List Event) : sent (a ++ b) = sent a ++ sent b := by
  induction a with
  | nil => rfl
  | cons e rest ih => cases e <;> simp [sent, ih]

theorem accepted_append (a b : List Event) : accepted (a ++ b) = accepted a ++ accepted b := by
  induction a with
  | nil => rfl
  | cons e rest ih => cases e <;> simp [accepted, ih]

theorem lookups_append (a b : List Event) : lookups (a ++ b) = lookups a ++ lookups b := by
  induction a with
  | nil => rfl
  | cons e rest ih => cases e <;> simp [lookups, ih]

theorem sent_probe (path : Bytes) : sent (probe path) = [] := by
  unfold probe
  split <;> rfl

theorem handle_client_pos (fs : FileSystem) (send : SendOracle) (bytes_read : Int)
    (received : Bytes) (hread : 0 < bytes_read) :
    handle_client fs send bytes_read received
      = respond fs send (read_request received).method (read_request received).path
          (read_request received).http_version := by
  unfold handle_client
  rw [if_neg (not_le.mpr hread)]

theorem method_gate_passed {method : Bytes}
    (hmethod : method = "GET".toList ∨ method = "OPTIONS".toList) :
    ¬ (method ≠ GET ∧ method ≠ OPTIONS) := by
  rintro ⟨h1, h2⟩
  rcases hmethod with h | h
  · exact h1 h
  · exact h2 h

/-- C5: a `GET` or `OPTIONS` request whose sanitized path is non-empty, does
not end in `/` and is a directory gets exactly the 301 response with
`Location: /<sanitized path>/` and `Content-Length: 0`. -/
theorem directory_redirect (fs : FileSystem) (send : SendOracle) (bytes_read : Int)
    (received : Bytes) (hread : 0 < bytes_read)
    (hmethod : (read_request received).method = "GET".toList
      ∨ (read_request received).method = "OPTIONS".toList)
    (hne : sanitize (read_request received).path ≠ [])
    (hslash : (sanitize (read_request received).path).getLast? ≠ some '/')
    (hdir : fs.is_dir (sanitize (read_request received).path) = true) :
    sent (handle_client fs send bytes_read received)
      = ["HTTP/1.1 301 Moved Permanently\r\nLocation: /".toList
          ++ sanitize (read_request received).path
          ++ "/\r\nContent-Length: 0\r\n\r\n".toList]
    ∧ handle_client fs send bytes_read received
      = [Event.stat (sanitize (read_request received).path),
         Event.send (response_301 (sanitize (read_request received).path))
           (send 0 (response_301 (sanitize (read_request received).path))),
         Event.log (read_request received).method (read_request received).path
           (read_request received).http_version 301 0,
         Event.close] := by
  have hcheck : (no_trailing_slash (sanitize (read_request received).path)
      && fs.is_dir (sanitize (read_request received).path)) = true := by
    cases hp : sanitize (read_request received).path with
    | nil => exact absurd hp hne
    | cons c rest =>
      rw [hp] at hslash hdir
      simp [no_trailing_slash, hdir, hslash]
  have hrun : handle_client fs send bytes_read received
      = [Event.stat (sanitize (read_request received).path),
         Event.send (response_301 (sanitize (read_request received).path))
           (send 0 (response_301 (sanitize (read_request received).path))),
         Event.log (read_request received).method (read_request received).path
           (read_request received).http_version 301 0,
         Event.close] := by
    rw [handle_client_pos fs send bytes_read received hread]
    unfold respond
    rw [if_neg (method_gate_passed hmethod)]
    simp only [hcheck, if_true]
  refine ⟨?_, hrun⟩
  rw [hrun, ← response_301_eq]
  rfl

/-- Witness of C5: `GET /docs` with a directory `docs`. -/
theorem directory_redirect_witness :
    sent (handle_client docs_fs send_all 20 "GET /docs HTTP/1.1\r\n".toList)
      = ["HTTP/1.1 301 Moved Permanently\r\nLocation: /".toList
          ++ sanitize (read_request "GET /docs HTTP/1.1\r\n".toList).path
          ++ "/\r\nContent-Length: 0\r\n\r\n".toList]
    ∧ sanitize (read_request "GET /docs HTTP/1.1\r\n".toList).path = "docs".toList :=
  ⟨(directory_redirect docs_fs send_all 20 "GET /docs HTTP/1.1\r\n".toList
    (by decide) (by decide) (by decide) (by decide) (by decide)).1, by decide⟩

theorem index_substitute_of_no_trailing_slash (path : Bytes)
    (h : no_trailing_slash path = true) : index_substitute path = path := by
  cases path with
  | nil => simp [no_trailing_slash] at h
  | cons c rest =>
    simp only [no_trailing_slash, Bool.and_eq_true, bne_iff_ne] at h
    simp [index_substitute, h.2]

/-- The handler past the method gate, the redirect check and the traversal
guard: what remains is the file open and what follows it. -/
theorem respond_at_open (fs : FileSystem) (send : SendOracle) (method target version : Bytes)
    (hmethod : method = "GET".toList ∨ method = "OPTIONS".toList)
    (hredirect : no_trailing_slash (sanitize target) = true
      → fs.is_dir (sanitize target) = false)
    (hguard : has_dotdot (index_substitute (sanitize target)) = false) :
    respond fs send method target version
      = match fs.open_file (index_substitute (sanitize target)) with
        | none =>
          probe (sanitize target)
            ++ [Event.open_file (index_substitute (sanitize target)),
              Event.log method target version 404 0,
              Event.send response_404 (send 0 response_404), Event.close]
        | some file =>
          if method = OPTIONS then
            probe (sanitize target)
              ++ [Event.open_file (index_substitute (sanitize target)),
                Event.log method target version 204 0,
                Event.send response_204 (send 0 response_204), Event.close,
                Event.close_file]
          else
            probe (sanitize target)
              ++ [Event.open_file (index_substitute (sanitize target)),
                Event.log method target version 200 file.tellg_end,
                Event.send
                  (header_200 file.tellg_end
                    (get_content_type (index_substitute (sanitize target))))
                  (send 0 (header_200 file.tellg_end
                    (get_content_type (index_substitute (sanitize target)))))]
              ++ stream_file send 1 file.data ++ [Event.close_file, Event.close] := by
  have hcheck : (no_trailing_slash (sanitize target) && fs.is_dir (sanitize target)) = false := by
    cases hn : no_trailing_slash (sanitize target) with
    | false => rfl
    | true => simp [hredirect hn]
  unfold respond
  rw [if_neg (method_gate_passed hmethod)]
  simp only [hcheck, hguard, Bool.false_eq_true, if_false]

/-- The traversal guard where it is reached: past the method gate and the
redirect check, a resolved path containing `..` gets the 403 response and no
file is opened. -/
theorem traversal_guard_rejects (fs : FileSystem) (send : SendOracle) (bytes_read : Int)
    (received : Bytes) (hread : 0 < bytes_read)
    (hmethod : (read_request received).method = "GET".toList
      ∨ (read_request received).method = "OPTIONS".toList)
    (hredirect : no_trailing_slash (sanitize (read_request received).path) = true
      → fs.is_dir (sanitize (read_request received).path) = false)
    (hdots : has_dotdot (index_substitute (sanitize (read_request received).path)) = true) :
    handle_client fs send bytes_read received
      = probe (sanitize (read_request received).path)
        ++ [Event.log (read_request received).method (read_request received).path
            (read_request received).http_version 403 0,
          Event.send response_403 (send 0 response_403), Event.close] := by
  have hcheck : (no_trailing_slash (sanitize (read_request received).path)
      && fs.is_dir (sanitize (read_request received).path)) = false := by
    cases hn : no_trailing_slash (sanitize (read_request received).path) with
    | false => rfl
    | true => simp [hredirect hn]
  rw [handle_client_pos fs send bytes_read received hread]
  unfold respond
  rw [if_neg (method_gate_passed hmethod)]
  simp only [hcheck, hdots, Bool.false_eq_true, if_false, if_true]

/-- C6: a `GET` request that passes the redirect check and the traversal
guard and whose resolved path does not open gets exactly the 404 response
with `Content-Length: 0`, in one `send`, and nothing after it. -/
theorem not_found (fs : FileSystem) (send : SendOracle) (bytes_read : Int)
    (received : Bytes) (hread : 0 < bytes_read)
    (hmethod : (read_request received).method = "GET".toList)
    (hredirect : no_trailing_slash (sanitize (read_request received).path) = true
      → fs.is_dir (sanitize (read_request received).path) = false)
    (hguard : has_dotdot (index_substitute (sanitize (read_request received).path)) = false)
    (hopen : fs.open_file (index_substitute (sanitize (read_request received).path)) = none) :
    sent (handle_client fs send bytes_read received)
      = ["HTTP/1.1 404 Not Found\r\nContent-Length: 0\r\n\r\n".toList]
    ∧ handle_client fs send bytes_read received
      = probe (sanitize (read_request received).path)
        ++ [Event.open_file (index_substitute (sanitize (read_request received).path)),
          Event.log (read_request received).method (read_request received).path
            (read_request received).http_version 404 0,
          Event.send response_404 (send 0 response_404), Event.close] := by
  have hrun := respond_at_open fs send (read_request received).method
    (read_request received).path (read_request received).http_version
    (Or.inl hmethod) hredirect hguard
  rw [hopen] at hrun
  rw [handle_client_pos fs send bytes_read received hread, hrun]
  refine ⟨?_, rfl⟩
  rw [sent_append, sent_probe]
  rfl

/-- Witness of C6: `GET /missing.txt` with nothing on disk. -/
theorem not_found_witness :
    sent (handle_client empty_fs send_all 20 "GET /missing.txt HTTP/1.1\r\n".toList)
      = ["HTTP/1.1 404 Not Found\r\nContent-Length: 0\r\n\r\n".toList] :=
  (not_found empty_fs send_all 20 "GET /missing.txt HTTP/1.1\r\n".toList
    (by decide) (by decide) (by decide) (by decide) (by decide)).1

/-- C3 as stated fails, in two ways. A regular file named `a..b` opens and
is not a directory, yet `GET /a..b` is answered 403 by the traversal guard,
not 200. And a named pipe opens and is not a directory, its path has no
`..`, yet `seekg` fails on it and `GET /pipe` is answered with
`Content-Length: -1`, which is not the byte length of the file. -/
theorem get_openable_file_not_always_200 :
    (¬ ∀ (fs : FileSystem) (send : SendOracle) (bytes_read : Int) (received : Bytes)
        (file : Stream),
        0 < bytes_read → (read_request received).method = "GET".toList →
        fs.open_file (index_substitute (sanitize (read_request received).path)) = some file →
        file.regular →
        fs.is_dir (index_substitute (sanitize (read_request received).path)) = false →
        (sent (handle_client fs send bytes_read received)).head?
          = some ("HTTP/1.1 200 OK\r\nContent-Length: ".toList
              ++ Nat.toDigits 10 file.data.length ++ "\r\nContent-Type: ".toList
              ++ get_content_type (index_substitute (sanitize (read_request received).path))
              ++ "\r\n\r\n".toList))
    ∧ (¬ ∀ (fs : FileSystem) (send : SendOracle) (bytes_read : Int) (received : Bytes)
        (file : Stream),
        0 < bytes_read → (read_request received).method = "GET".toList →
        fs.open_file (index_substitute (sanitize (read_request received).path)) = some file →
        fs.is_dir (index_substitute (sanitize (read_request received).path)) = false →
        has_dotdot (index_substitute (sanitize (read_request received).path)) = false →
        (sent (handle_client fs send bytes_read received)).head?
          = some ("HTTP/1.1 200 OK\r\nContent-Length: ".toList
              ++ Nat.toDigits 10 file.data.length ++ "\r\nContent-Type: ".toList
              ++ get_content_type (index_substitute (sanitize (read_request received).path))
              ++ "\r\n\r\n".toList))
    ∧ sent (handle_client dotted_name_fs send_all 20 "GET /a..b HTTP/1.1\r\n".toList)
      = ["HTTP/1.1 403 Forbidden\r\nContent-Length: 0\r\n\r\n".toList]
    ∧ sent (handle_client pipe_fs send_all 20 "GET /pipe HTTP/1.1\r\n".toList)
      = ["HTTP/1.1 200 OK\r\nContent-Length: -1\r\nContent-Type: application/octet-stream\r\n\r\n".toList] := by
  have h403 : sent (handle_client dotted_name_fs send_all 20 "GET /a..b HTTP/1.1\r\n".toList)
      = ["HTTP/1.1 403 Forbidden\r\nContent-Length: 0\r\n\r\n".toList] := by decide
  have hpipe : sent (handle_client pipe_fs send_all 20 "GET /pipe HTTP/1.1\r\n".toList)
      = ["HTTP/1.1 200 OK\r\nContent-Length: -1\r\nContent-Type: application/octet-stream\r\n\r\n".toList] := by
    decide
  refine ⟨?_, ?_, h403, hpipe⟩
  · intro h
    have h200 := h dotted_name_fs send_all 20 "GET /a..b HTTP/1.1\r\n".toList
      { tellg_end := 5, data := "hello".toList }
      (by decide) (by decide) (by decide) (by decide) (by decide)
    rw [h403] at h200
    revert h200
    decide
  · intro h
    have h200 := h pipe_fs send_all 20 "GET /pipe HTTP/1.1\r\n".toList
      { tellg_end := -1, data := [] }
      (by decide) (by decide) (by decide) (by decide) (by decide)
    rw [hpipe] at h200
    revert h200
    decide

/-- C3 (amended): a `GET` request whose resolved path has no `..`, is not a
directory and opens as a regular file (one whose end position, as `tellg`
reports it after `seekg` to the end, is its byte length) is answered with
the 200 header whose `Content-Length` is the decimal byte length of the file
and whose `Content-Type` is `get_content_type` of the resolved path; the
streaming loop follows, then the file and the connection are closed. -/
theorem file_served (fs : FileSystem) (send : SendOracle) (bytes_read : Int)
    (received : Bytes) (file : Stream) (hread : 0 < bytes_read)
    (hmethod : (read_request received).method = "GET".toList)
    (hopen : fs.open_file (index_substitute (sanitize (read_request received).path))
      = some file)
    (hregular : file.regular)
    (hnotdir : fs.is_dir (index_substitute (sanitize (read_request received).path)) = false)
    (hguard : has_dotdot (index_substitute (sanitize (read_request received).path)) = false) :
    (sent (handle_client fs send bytes_read received)).head?
      = some ("HTTP/1.1 200 OK\r\nContent-Length: ".toList
          ++ Nat.toDigits 10 file.data.length ++ "\r\nContent-Type: ".toList
          ++ get_content_type (index_substitute (sanitize (read_request received).path))
          ++ "\r\n\r\n".toList)
    ∧ handle_client fs send bytes_read received
      = probe (sanitize (read_request received).path)
        ++ [Event.open_file (index_substitute (sanitize (read_request received).path)),
          Event.log (read_request received).method (read_request received).path
            (read_request received).http_version 200 (file.data.length : Int),
          Event.send
            (header_200 (file.data.length : Int)
              (get_content_type (index_substitute (sanitize (read_request received).path))))
            (send 0 (header_200 (file.data.length : Int)
              (get_content_type (index_substitute (sanitize (read_request received).path)))))]
        ++ stream_file send 1 file.data ++ [Event.close_file, Event.close] := by
  have hredirect : no_trailing_slash (sanitize (read_request received).path) = true
      → fs.is_dir (sanitize (read_request received).path) = false := by
    intro hn
    rw [index_substitute_of_no_trailing_slash _ hn] at hnotdir
    exact hnotdir
  have hrun := respond_at_open fs send (read_request received).method
    (read_request received).path (read_request received).http_version
    (Or.inl hmethod) hredirect hguard
  have hnotopt : ¬ ((read_request received).method = OPTIONS) := by
    rw [hmethod]
    decide
  rw [hopen] at hrun
  simp only [if_neg hnotopt] at hrun
  unfold Stream.regular at hregular
  rw [hregular] at hrun
  rw [handle_client_pos fs send bytes_read received hread, hrun]
  refine ⟨?_, rfl⟩
  rw [List.append_assoc, List.append_assoc, sent_append, sent_probe, ← header_200_eq]
  rfl

/-- Witness of C3: `GET /` with a 50-byte `index.html`. -/
theorem file_served_witness :
    (sent (handle_client index_fs send_all 16 "GET / HTTP/1.1\r\n".toList)).head?
      = some "HTTP/1.1 200 OK\r\nContent-Length: 50\r\nContent-Type: text/html\r\n\r\n".toList :=
  (file_served index_fs send_all 16 "GET / HTTP/1.1\r\n".toList
    { tellg_end := 50, data := List.replicate 50 'x' }
    (by decide) (by decide) (by decide) (by decide) (by decide) (by decide)).1.trans
    (by decide)

/-- C7 as stated fails: the file `a..b` opens, yet `OPTIONS /a..b` is
answered 403 by the traversal guard, not 204. -/
theorem options_openable_file_not_always_204 :
    ¬ ∀ (fs : FileSystem) (send : SendOracle) (bytes_read : Int) (received : Bytes)
        (file : Stream),
        0 < bytes_read → (read_request received).method = "OPTIONS".toList →
        fs.open_file (index_substitute (sanitize (read_request received).path)) = some file →
        fs.is_dir (index_substitute (sanitize (read_request received).path)) = false →
        sent (handle_client fs send bytes_read received)
          = [("HTTP/1.1 204 No Content\r\nAllow: GET, OPTIONS\r\n"
              ++ "Access-Control-Allow-Origin: *\r\n"
              ++ "Access-Control-Allow-Methods: GET, OPTIONS\r\n\r\n").toList] := by
  intro h
  have h403 : sent (handle_client dotted_name_fs send_all 24 "OPTIONS /a..b HTTP/1.1\r\n".toList)
      = ["HTTP/1.1 403 Forbidden\r\nContent-Length: 0\r\n\r\n".toList] := by decide
  have h204 := h dotted_name_fs send_all 24 "OPTIONS /a..b HTTP/1.1\r\n".toList
    { tellg_end := 5, data := "hello".toList }
    (by decide) (by decide) (by decide) (by decide)
  rw [h403] at h204
  revert h204
  decide

/-- C7 (amended): an `OPTIONS` request whose resolved path has no `..`, is
not a directory and opens is answered with exactly the 204 response carrying
`Allow` and the two CORS headers, in one `send`; no file byte is sent. -/
theorem options_no_content (fs : FileSystem) (send : SendOracle) (bytes_read : Int)
    (received : Bytes) (file : Stream) (hread : 0 < bytes_read)
    (hmethod : (read_request received).method = "OPTIONS".toList)
    (hopen : fs.open_file (index_substitute (sanitize (read_request received).path))
      = some file)
    (hnotdir : fs.is_dir (index_substitute (sanitize (read_request received).path)) = false)
    (hguard : has_dotdot (index_substitute (sanitize (read_request received).path)) = false) :
    sent (handle_client fs send bytes_read received)
      = [("HTTP/1.1 204 No Content\r\nAllow: GET, OPTIONS\r\n"
          ++ "Access-Control-Allow-Origin: *\r\n"
          ++ "Access-Control-Allow-Methods: GET, OPTIONS\r\n\r\n").toList]
    ∧ handle_client fs send bytes_read received
      = probe (sanitize (read_request received).path)
        ++ [Event.open_file (index_substitute (sanitize (read_request received).path)),
          Event.log (read_request received).method (read_request received).path
            (read_request received).http_version 204 0,
          Event.send response_204 (send 0 response_204), Event.close, Event.close_file] := by
  have hredirect : no_trailing_slash (sanitize (read_request received).path) = true
      → fs.is_dir (sanitize (read_request received).path) = false := by
    intro hn
    rw [index_substitute_of_no_trailing_slash _ hn] at hnotdir
    exact hnotdir
  have hrun := respond_at_open fs send (read_request received).method
    (read_request received).path (read_request received).http_version
    (Or.inr hmethod) hredirect hguard
  have hopt : (read_request received).method = OPTIONS := hmethod
  rw [hopen] at hrun
  simp only [if_pos hopt] at hrun
  rw [handle_client_pos fs send bytes_read received hread, hrun]
  refine ⟨?_, rfl⟩
  rw [sent_append, sent_probe]
  rfl

/-- Witness of C7: `OPTIONS /index.html` with an `index.html` that opens. -/
theorem options_no_content_witness :
    sent (handle_client index_fs send_all 28 "OPTIONS /index.html HTTP/1.1\r\n".toList)
      = [("HTTP/1.1 204 No Content\r\nAllow: GET, OPTIONS\r\n"
          ++ "Access-Control-Allow-Origin: *\r\n"
          ++ "Access-Control-Allow-Methods: GET, OPTIONS\r\n\r\n").toList] :=
  (options_no_content index_fs send_all 28 "OPTIONS /index.html HTTP/1.1\r\n".toList
    { tellg_end := 50, data := List.replicate 50 'x' }
    (by decide) (by decide) (by decide) (by decide) (by decide)).1

/-- With results that are positive and within what was offered, the inner
loop hands over the chunk from `sent_total` on, once and in order. -/
theorem accepted_send_chunk (send : SendOracle) (hsend : well_behaved send) :
    ∀ (fuel i : Nat) (chunk : Bytes) (sent_total : Nat),
      chunk.length ≤ sent_total + fuel → sent_total ≤ chunk.length →
      accepted (send_chunk send fuel i chunk sent_total).1 = chunk.drop sent_total := by
  intro fuel
  induction fuel with
  | zero =>
    intro i chunk sent_total hfuel hle
    have hlen : chunk.length ≤ sent_total := by omega
    simp [send_chunk, accepted, List.drop_eq_nil_of_le hlen]
  | succ fuel ih =>
    intro i chunk sent_total hfuel hle
    unfold send_chunk
    by_cases hlt : sent_total < chunk.length
    · have hne : chunk.drop sent_total ≠ [] := by
        intro h
        have := List.drop_eq_nil_iff.mp h
        omega
      obtain ⟨hpos, hbound⟩ := hsend i (chunk.drop sent_total) hne
      rw [List.length_drop] at hbound
      have hnot : ¬ (send i (chunk.drop sent_total) ≤ 0) := not_le.mpr hpos
      simp only [if_pos hlt, if_neg hnot, accepted]
      have hnat : 0 < (send i (chunk.drop sent_total)).toNat := by omega
      have hnat2 : (send i (chunk.drop sent_total)).toNat ≤ chunk.length - sent_total := by
        omega
      rw [ih (i + 1) chunk (sent_total + (send i (chunk.drop sent_total)).toNat)
        (by omega) (by omega)]
      rw [← List.drop_drop]
      exact List.take_append_drop _ _
    · have hlen : chunk.length ≤ sent_total := by omega
      simp [if_neg hlt, accepted, List.drop_eq_nil_of_le hlen]

/-- With such results the outer loop hands over the whole file. -/
theorem accepted_stream_loop (send : SendOracle) (hsend : well_behaved send) :
    ∀ (fuel i : Nat) (rest : Bytes), rest.length / CHUNK_SIZE + 1 ≤ fuel →
      accepted (stream_loop send fuel i rest).1 = rest := by
  intro fuel
  induction fuel with
  | zero =>
    intro i rest hfuel
    exact absurd hfuel (Nat.not_succ_le_zero _)
  | succ fuel ih =>
    intro i rest hfuel
    have hsize : CHUNK_SIZE = 4096 := rfl
    rw [hsize] at hfuel
    unfold stream_loop
    have hchunk : accepted
        (if 0 < (rest.take CHUNK_SIZE).length then
          send_chunk send (rest.take CHUNK_SIZE).length i (rest.take CHUNK_SIZE) 0
         else ([], i)).1 = rest.take CHUNK_SIZE := by
      by_cases hpos : 0 < (rest.take CHUNK_SIZE).length
      · rw [if_pos hpos]
        have := accepted_send_chunk send hsend (rest.take CHUNK_SIZE).length i
          (rest.take CHUNK_SIZE) 0 (by omega) (by omega)
        simpa using this
      · rw [if_neg hpos]
        have hnil : rest.take CHUNK_SIZE = [] := List.length_eq_zero.mp (by omega)
        rw [hnil]
        rfl
    by_cases hlast : (rest.take CHUNK_SIZE).length < CHUNK_SIZE
    · simp only [if_pos hlast]
      rw [hchunk]
      rw [List.length_take] at hlast
      exact List.take_of_length_le (by omega)
    · simp only [if_neg hlast]
      rw [accepted_append, hchunk]
      rw [List.length_take, hsize] at hlast
      rw [ih _ (rest.drop CHUNK_SIZE) (by rw [List.length_drop, hsize]; omega)]
      exact List.take_append_drop _ _

/-- Fuel of the inner loop: any amount covering the bytes still to send
gives the same run, for every `send` behaviour. -/
theorem send_chunk_fuel (send : SendOracle) :
    ∀ (fuel1 fuel2 i : Nat) (chunk : Bytes) (sent_total : Nat),
      chunk.length ≤ sent_total + fuel1 → chunk.length ≤ sent_total + fuel2 →
      send_chunk send fuel1 i chunk sent_total = send_chunk send fuel2 i chunk sent_total := by
  intro fuel1
  induction fuel1 with
  | zero =>
    intro fuel2 i chunk sent_total h1 _
    have hlt : ¬ sent_total < chunk.length := by omega
    cases fuel2 with
    | zero => rfl
    | succ fuel2 => simp [send_chunk, if_neg hlt]
  | succ fuel1 ih =>
    intro fuel2 i chunk sent_total h1 h2
    cases fuel2 with
    | zero =>
      have hlt : ¬ sent_total < chunk.length := by omega
      simp [send_chunk, if_neg hlt]
    | succ fuel2 =>
      unfold send_chunk
      by_cases hlt : sent_total < chunk.length
      · by_cases hfail : send i (chunk.drop sent_total) ≤ 0
        · simp only [if_pos hlt, if_pos hfail]
        · simp only [if_pos hlt, if_neg hfail]
          have hstep : 0 < (send i (chunk.drop sent_total)).toNat := by omega
          rw [ih fuel2 (i + 1) chunk (sent_total + (send i (chunk.drop sent_total)).toNat)
            (by omega) (by omega)]
      · simp only [if_neg hlt]

/-- Fuel of the outer loop: any amount above `length / CHUNK_SIZE` gives the
same run, for every `send` behaviour; `stream_file` cuts no iteration short. -/
theorem stream_loop_fuel (send : SendOracle) :
    ∀ (fuel1 fuel2 i : Nat) (rest : Bytes),
      rest.length / CHUNK_SIZE + 1 ≤ fuel1 → rest.length / CHUNK_SIZE + 1 ≤ fuel2 →
      stream_loop send fuel1 i rest = stream_loop send fuel2 i rest := by
  intro fuel1
  induction fuel1 with
  | zero =>
    intro fuel2 i rest h1 _
    exact absurd h1 (Nat.not_succ_le_zero _)
  | succ fuel1 ih =>
    intro fuel2 i rest h1 h2
    cases fuel2 with
    | zero => exact absurd h2 (Nat.not_succ_le_zero _)
    | succ fuel2 =>
      have hsize : CHUNK_SIZE = 4096 := rfl
      rw [hsize] at h1 h2
      unfold stream_loop
      by_cases hlast : (rest.take CHUNK_SIZE).length < CHUNK_SIZE
      · simp only [if_pos hlast]
      · simp only [if_neg hlast]
        rw [List.length_take, hsize] at hlast
        rw [ih fuel2 _ (rest.drop CHUNK_SIZE) (by rw [List.length_drop, hsize]; omega)
          (by rw [List.length_drop, hsize]; omega)]

/-- C4: for every file content and every `send` behaviour whose results are
positive and no larger than the bytes offered, the bytes accepted by `send`
in the streaming loop are the file contents, in order, each exactly once. -/
theorem stream_file_sends_file (send : SendOracle) (i : Nat) (data : Bytes)
    (hsend : ∀ (k : Nat) (offered : Bytes), offered ≠ [] →
      0 < send k offered ∧ send k offered ≤ (offered.length : Int)) :
    accepted (stream_file send i data) = data :=
  accepted_stream_loop send hsend (data.length / CHUNK_SIZE + 1) i data (le_refl _)

/-- Witness of C4: a five-byte file through a socket taking one byte per call. -/
theorem stream_file_sends_file_witness :
    accepted (stream_file send_one 1 "hello".toList) = "hello".toList
    ∧ (stream_file send_one 1 "hello".toList).length = 5 :=
  ⟨stream_file_sends_file send_one 1 "hello".toList (by
      intro k offered hne
      cases offered with
      | nil => exact absurd rfl hne
      | cons c rest =>
        refine ⟨show (0 : Int) < 1 by decide, ?_⟩
        show (1 : Int) ≤ ((rest.length + 1 : Nat) : Int)
        omega),
    by decide⟩

theorem tolower_eq_dot (c : Char) : tolower c = '.' ↔ c = '.' := by
  unfold tolower
  split
  · rename_i h
    constructor
    · intro heq
      exfalso
      obtain ⟨h1, h2⟩ := h
      generalize c.toNat = n at h1 h2 heq
      interval_cases n <;> exact absurd heq (by decide)
    · intro heq
      subst heq
      exact absurd h (by decide)
  · exact Iff.rfl

theorem lookup_skip (ext k v : Bytes) (rest : List (Bytes × Bytes)) (h : ¬ ext = k) :
    List.lookup ext ((k, v) :: rest) = List.lookup ext rest := by
  have hb : (ext == k) = false := by simpa using h
  simp only [List.lookup, hb]

theorem getD_lookup_cons (ext k v d : Bytes) (rest : List (Bytes × Bytes)) :
    (List.lookup ext ((k, v) :: rest)).getD d
      = if ext = k then v else (List.lookup ext rest).getD d := by
  by_cases h : ext = k
  · subst h
    simp [List.lookup]
  · rw [lookup_skip _ _ _ _ h, if_neg h]

theorem ite_or_chain (p q : Prop) [Decidable p] [Decidable q] (v x : Bytes) :
    (if p ∨ q then v else x) = if p then v else if q then v else x := by
  by_cases hp : p <;> by_cases hq : q <;> simp [hp, hq]

/-- The `if` chain of `get_content_type` is a lookup in the table. -/
theorem table_type_eq (ext : Bytes) :
    table_type ext =
    if ext = ".html".toList ∨ ext = ".htm".toList then "text/html".toList
    else if ext = ".json".toList then "application/json".toList
    else if ext = ".js".toList then "application/javascript".toList
    else if ext = ".css".toList then "text/css".toList
    else if ext = ".gif".toList then "image/gif".toList
    else if ext = ".png".toList then "image/png".toList
    else if ext = ".jpg".toList ∨ ext = ".jpeg".toList then "image/jpeg".toList
    else if ext = ".txt".toList then "text/plain".toList
    else if ext = ".svg".toList then "image/svg+xml".toList
    else if ext = ".ico".toList then "image/x-icon".toList
    else if ext = ".pdf".toList then "application/pdf".toList
    else if ext = ".zip".toList then "application/zip".toList
    else if ext = ".tar".toList then "application/x-tar".toList
    else if ext = ".gz".toList then "application/gzip".toList
    else if ext = ".mp4".toList then "video/mp4".toList
    else if ext = ".mp3".toList then "audio/mpeg".toList
    else if ext = ".wav".toList then "audio/wav".toList
    else "application/octet-stream".toList := by
  unfold table_type mime_table
  rw [ite_or_chain, ite_or_chain]
  repeat rw [getD_lookup_cons]
  rfl

theorem get_content_type_eq (path : Bytes) :
    get_content_type path =
      match rfind path '.' with
      | some dot_pos => table_type ((path.drop dot_pos).map tolower)
      | none => "application/octet-stream".toList := by
  unfold get_content_type
  cases rfind path '.' with
  | none => rfl
  | some dot_pos => exact (table_type_eq _).symm

theorem rfind_none (l : Bytes) (c : Char) (h : c ∉ l) : rfind l c = none := by
  induction l with
  | nil => rfl
  | cons x rest ih =>
    have hx : ¬ x = c := fun e => h (e ▸ List.mem_cons_self x rest)
    have hrest : c ∉ rest := fun m => h (List.mem_cons_of_mem x m)
    simp [rfind, ih hrest, hx]

theorem rfind_append (pre l : Bytes) (c : Char) (i : Nat) (h : rfind l c = some i) :
    rfind (pre ++ l) c = some (pre.length + i) := by
  induction pre with
  | nil => simpa using h
  | cons x rest ih =>
    have hstep : rfind (x :: (rest ++ l)) c = some (rest.length + i + 1) := by
      simp only [rfind, ih]
    rw [List.cons_append, hstep, List.length_cons]
    exact congrArg some (by omega)

theorem rfind_last_dot (pre suf : Bytes) (h : '.' ∉ suf) :
    rfind (pre ++ '.' :: suf) '.' = some pre.length := by
  have h0 : rfind ('.' :: suf) '.' = some 0 := by
    simp [rfind, rfind_none suf '.' h]
  simpa using rfind_append pre ('.' :: suf) '.' 0 h0

theorem rfind_map_tolower (l : Bytes) : rfind (l.map tolower) '.' = rfind l '.' := by
  induction l with
  | nil => rfl
  | cons x rest ih =>
    simp only [List.map_cons, rfind, ih]
    cases rfind rest '.' with
    | some i => rfl
    | none =>
      by_cases hx : x = '.'
      · simp [hx, (tolower_eq_dot '.').mpr rfl]
      · have hx2 : ¬ tolower x = '.' := fun e => hx ((tolower_eq_dot x).mp e)
        simp [hx, hx2]

/-- Form of `get_content_type` that reads the lower-cased path only. -/
theorem get_content_type_of_lower (path : Bytes) :
    get_content_type path =
      match rfind (path.map tolower) '.' with
      | some dot_pos => table_type ((path.map tolower).drop dot_pos)
      | none => "application/octet-stream".toList := by
  rw [get_content_type_eq, rfind_map_tolower]
  cases rfind path '.' with
  | none => rfl
  | some dot_pos => simp only [List.map_drop]

/-- C9: `get_content_type` gives the type the 19-entry table assigns to the
lower-cased substring starting at the last `.` of the path, and
`application/octet-stream` when the path has no `.` or the table does not
list that substring; paths that agree after lower-casing get the same type. -/
theorem get_content_type_table :
    (∀ (pre suf : Bytes), '.' ∉ suf →
      get_content_type (pre ++ '.' :: suf)
        = (mime_table.lookup (('.' :: suf).map tolower)).getD
            "application/octet-stream".toList)
    ∧ (∀ (path : Bytes), '.' ∉ path →
      get_content_type path = "application/octet-stream".toList)
    ∧ (∀ (p q : Bytes), p.map tolower = q.map tolower →
      get_content_type p = get_content_type q)
    ∧ mime_table.length = 19
    ∧ get_content_type "A.HTML".toList = "text/html".toList
    ∧ get_content_type "a.html".toList = "text/html".toList := by
  refine ⟨?_, ?_, ?_, rfl, by decide, by decide⟩
  · intro pre suf hsuf
    rw [get_content_type_eq, rfind_last_dot pre suf hsuf]
    simp only [List.drop_left]
    rfl
  · intro path hpath
    rw [get_content_type_eq, rfind_none path '.' hpath]
  · intro p q hpq
    rw [get_content_type_of_lower p, get_content_type_of_lower q, hpq]

/-- Witness of C9: `archive.TAR.GZ` is typed by `.GZ`, lower-cased, and a
path in other letter case gets the same type. -/
theorem get_content_type_table_witness :
    get_content_type ("archive.TAR".toList ++ '.' :: "GZ".toList) = "application/gzip".toList
    ∧ get_content_type "Makefile".toList = "application/octet-stream".toList
    ∧ get_content_type "INDEX.Htm".toList = get_content_type "index.hTM".toList :=
  ⟨(get_content_type_table.1 "archive.TAR".toList "GZ".toList (by decide)).trans (by decide),
   get_content_type_table.2.1 "Makefile".toList (by decide),
   get_content_type_table.2.2.1 "INDEX.Htm".toList "index.hTM".toList (by decide)⟩

theorem cut_at_nil (c : Char) : cut_at [] c = [] := rfl

theorem cut_at_cons (x : Char) (l : Bytes) (c : Char) :
    cut_at (x :: l) c = if x = c then [] else x :: cut_at l c := by
  unfold cut_at
  by_cases h : x = c
  · simp [find, h]
  · cases hf : find l c <;> simp [find, h, hf]

theorem cut_at_append (t l : Bytes) (c : Char) (h : c ∉ t) :
    cut_at (t ++ l) c = t ++ cut_at l c := by
  induction t with
  | nil => rfl
  | cons x rest ih =>
    have hx : ¬ x = c := fun e => h (e ▸ List.mem_cons_self x rest)
    have hrest : c ∉ rest := fun m => h (List.mem_cons_of_mem x m)
    rw [List.cons_append, cut_at_cons, if_neg hx, ih hrest, List.cons_append]

theorem cut_at_of_not_mem (t : Bytes) (c : Char) (h : c ∉ t) : cut_at t c = t := by
  have := cut_at_append t [] c h
  simpa [cut_at_nil] using this

theorem not_mem_cut_at (l : Bytes) (c : Char) : c ∉ cut_at l c := by
  induction l with
  | nil => simp [cut_at_nil]
  | cons x rest ih =>
    rw [cut_at_cons]
    by_cases hx : x = c
    · simp [hx]
    · rw [if_neg hx]
      intro hm
      rcases List.mem_cons.mp hm with e | m
      · exact hx e.symm
      · exact ih m

theorem mem_of_mem_cut_at (l : Bytes) (c x : Char) (h : x ∈ cut_at l c) : x ∈ l := by
  induction l with
  | nil => simp [cut_at_nil] at h
  | cons y rest ih =>
    rw [cut_at_cons] at h
    by_cases hy : y = c
    · simp [hy] at h
    · rw [if_neg hy] at h
      rcases List.mem_cons.mp h with e | m
      · exact e ▸ List.mem_cons_self y rest
      · exact List.mem_cons_of_mem y (ih m)

theorem mem_of_mem_strip (l : Bytes) (x : Char) (h : x ∈ strip_leading_slashes l) : x ∈ l := by
  induction l with
  | nil => simp [strip_leading_slashes] at h
  | cons y rest ih =>
    unfold strip_leading_slashes at h
    by_cases hy : y = '/'
    · rw [if_pos hy] at h
      exact List.mem_cons_of_mem y (ih h)
    · rw [if_neg hy] at h
      exact h

/-- The sanitized path holds neither `?` nor `#`. -/
theorem sanitize_no_query_fragment (target : Bytes) :
    '?' ∉ sanitize target ∧ '#' ∉ sanitize target := by
  unfold sanitize
  constructor
  · intro h
    exact not_mem_cut_at target '?'
      (mem_of_mem_cut_at _ '#' _ (mem_of_mem_strip _ _ h))
  · intro h
    exact not_mem_cut_at (cut_at target '?') '#' (mem_of_mem_strip _ _ h)

/-- A query or fragment suffix does not change the sanitized path. -/
theorem sanitize_append_suffix (t s : Bytes) (hq : '?' ∉ t) (hf : '#' ∉ t)
    (hs : s = [] ∨ s.head? = some '?' ∨ s.head? = some '#') :
    sanitize (t ++ s) = sanitize t := by
  have hbase : cut_at (cut_at t '?') '#' = t := by
    rw [cut_at_of_not_mem t '?' hq, cut_at_of_not_mem t '#' hf]
  have hcut : cut_at (cut_at (t ++ s) '?') '#' = t := by
    cases s with
    | nil => simpa using hbase
    | cons c r =>
      rcases hs with h | h | h
      · exact absurd h (List.cons_ne_nil c r)
      · have hc : c = '?' := by simpa using h
        subst hc
        rw [cut_at_append t _ '?' hq, cut_at_cons, if_pos rfl, List.append_nil,
          cut_at_of_not_mem t '#' hf]
      · have hc : c = '#' := by simpa using h
        subst hc
        rw [cut_at_append t _ '?' hq, cut_at_cons, if_neg (by decide),
          cut_at_append t _ '#' hf, cut_at_cons, if_pos rfl, List.append_nil]
  unfold sanitize
  rw [hcut, hbase]

theorem without_log_append (a b : List Event) :
    without_log (a ++ b) = without_log a ++ without_log b := by
  induction a with
  | nil => rfl
  | cons e rest ih => cases e <;> simp [without_log, ih]

theorem sent_without_log (a : List Event) : sent (without_log a) = sent a := by
  induction a with
  | nil => rfl
  | cons e rest ih => cases e <;> simp [without_log, sent, ih]

theorem lookups_without_log (a : List Event) : lookups (without_log a) = lookups a := by
  induction a with
  | nil => rfl
  | cons e rest ih => cases e <;> simp [without_log, lookups, ih]

/-- Apart from the log line, the handler reads the target through
`sanitize` only, and does not read the version. -/
theorem respond_of_sanitize (fs : FileSystem) (send : SendOracle)
    (method t1 t2 v1 v2 : Bytes) (h : sanitize t1 = sanitize t2) :
    without_log (respond fs send method t1 v1) = without_log (respond fs send method t2 v2) := by
  unfold respond
  rw [h]
  by_cases hgate : method ≠ GET ∧ method ≠ OPTIONS
  · simp only [if_pos hgate, without_log]
  · simp only [if_neg hgate]
    cases hcheck : (no_trailing_slash (sanitize t2) && fs.is_dir (sanitize t2))
    · simp only [Bool.false_eq_true, if_false]
      cases hguard : has_dotdot (index_substitute (sanitize t2))
      · simp only [Bool.false_eq_true, if_false]
        cases hopen : fs.open_file (index_substitute (sanitize t2)) with
        | none => simp only [without_log_append, without_log]
        | some file =>
          by_cases hopt : method = OPTIONS
          · simp only [if_pos hopt, without_log_append, without_log]
          · simp only [if_neg hopt, without_log_append, without_log]
      · simp only [if_true, without_log_append, without_log]
    · simp only [if_true, without_log]

/-- C10: for a target `t` with neither `?` nor `#` and a suffix `s` that is
empty or begins with `?` or `#`, the requests with targets `t ++ s` and `t`
(same method) have the same sanitized path, the same filesystem lookups and
the same bytes sent: the runs differ in the log line only. The sanitized
path of any target holds neither `?` nor `#`. -/
theorem query_fragment_ignored (fs : FileSystem) (send : SendOracle)
    (n1 n2 : Int) (received1 received2 t s : Bytes)
    (hread1 : 0 < n1) (hread2 : 0 < n2)
    (hmethod : (read_request received1).method = (read_request received2).method)
    (htarget1 : (read_request received1).path = t ++ s)
    (htarget2 : (read_request received2).path = t)
    (hq : '?' ∉ t) (hf : '#' ∉ t)
    (hs : s = [] ∨ s.head? = some '?' ∨ s.head? = some '#') :
    sanitize (t ++ s) = sanitize t
    ∧ lookups (handle_client fs send n1 received1)
      = lookups (handle_client fs send n2 received2)
    ∧ sent (handle_client fs send n1 received1) = sent (handle_client fs send n2 received2)
    ∧ without_log (handle_client fs send n1 received1)
      = without_log (handle_client fs send n2 received2)
    ∧ (∀ target : Bytes, '?' ∉ sanitize target ∧ '#' ∉ sanitize target) := by
  have hsan := sanitize_append_suffix t s hq hf hs
  have hrun : without_log (handle_client fs send n1 received1)
      = without_log (handle_client fs send n2 received2) := by
    rw [handle_client_pos fs send n1 received1 hread1,
      handle_client_pos fs send n2 received2 hread2, hmethod]
    apply respond_of_sanitize
    rw [htarget1, htarget2, hsan]
  refine ⟨hsan, ?_, ?_, hrun, sanitize_no_query_fragment⟩
  · rw [← lookups_without_log, hrun, lookups_without_log]
  · rw [← sent_without_log, hrun, sent_without_log]

/-- Witness of C10: `GET /a.html?x=1#y` against `GET /a.html`. -/
theorem query_fragment_ignored_witness :
    sanitize ("/a.html".toList ++ "?x=1#y".toList) = sanitize "/a.html".toList
    ∧ lookups (handle_client page_fs send_all 28 "GET /a.html?x=1#y HTTP/1.1\r\n".toList)
      = lookups (handle_client page_fs send_all 22 "GET /a.html HTTP/1.1\r\n".toList)
    ∧ sent (handle_client page_fs send_all 28 "GET /a.html?x=1#y HTTP/1.1\r\n".toList)
      = sent (handle_client page_fs send_all 22 "GET /a.html HTTP/1.1\r\n".toList)
    ∧ sent (handle_client page_fs send_all 22 "GET /a.html HTTP/1.1\r\n".toList)
      = ["HTTP/1.1 200 OK\r\nContent-Length: 3\r\nContent-Type: text/html\r\n\r\n".toList,
         "abc".toList] :=
  have h := query_fragment_ignored page_fs send_all 28 22
    "GET /a.html?x=1#y HTTP/1.1\r\n".toList "GET /a.html HTTP/1.1\r\n".toList
    "/a.html".toList "?x=1#y".toList
    (by decide) (by decide) (by decide) (by decide) (by decide) (by decide) (by decide)
    (by decide)
  ⟨h.1, h.2.1, h.2.2.1, by decide⟩

theorem tokens_nil : tokens [] = [] := rfl

theorem tokens_cons_space (c : Char) (s : Bytes) (hc : isspace c = true) :
    tokens (c :: s) = tokens s := by
  unfold tokens
  rw [List.splitOnP_cons, if_pos hc]
  rfl

/-- Splitting a string at whitespace: the first piece is the run of
non-whitespace at the front, the other pieces come from what follows the
whitespace character that ended it. -/
theorem splitOnP_isspace (s : Bytes) :
    s.splitOnP isspace
      = s.takeWhile (fun c => !isspace c)
        :: (match s.dropWhile (fun c => !isspace c) with
            | [] => []
            | _ :: r => r.splitOnP isspace) := by
  induction s with
  | nil => rfl
  | cons c rest ih =>
    rw [List.splitOnP_cons]
    by_cases hc : isspace c = true
    · simp [hc]
    · have hc2 : isspace c = false := by simpa using hc
      rw [if_neg hc, ih]
      simp [hc2]

/-- What follows a word is empty or begins with whitespace, so its tokens
are those after that character. -/
theorem tokens_after_word (s : Bytes) :
    (match s.dropWhile (fun c => !isspace c) with
      | [] => []
      | _ :: r => tokens r) = tokens (s.dropWhile (fun c => !isspace c)) := by
  induction s with
  | nil => rfl
  | cons c rest ih =>
    by_cases hc : isspace c = true
    · have hd : (c :: rest).dropWhile (fun c => !isspace c) = c :: rest := by
        simp [hc]
      rw [hd, tokens_cons_space c rest hc]
    · have hc2 : isspace c = false := by simpa using hc
      have hd : (c :: rest).dropWhile (fun c => !isspace c)
          = rest.dropWhile (fun c => !isspace c) := by
        simp [hc2]
      rw [hd]
      exact ih

theorem tokens_word (s : Bytes) :
    tokens s
      = (if (s.takeWhile (fun c => !isspace c)).isEmpty then []
          else [s.takeWhile (fun c => !isspace c)])
        ++ tokens (s.dropWhile (fun c => !isspace c)) := by
  rw [← tokens_after_word]
  conv_lhs => unfold tokens
  rw [splitOnP_isspace]
  cases hw : s.takeWhile (fun c => !isspace c) with
  | nil =>
    cases hr : s.dropWhile (fun c => !isspace c) with
    | nil => simp
    | cons d r => simp [tokens]
  | cons x w =>
    cases hr : s.dropWhile (fun c => !isspace c) with
    | nil => simp
    | cons d r => simp [tokens]

theorem tokens_dropWhile_space (s : Bytes) : tokens (s.dropWhile isspace) = tokens s := by
  induction s with
  | nil => rfl
  | cons c rest ih =>
    by_cases hc : isspace c = true
    · rw [List.dropWhile_cons_of_pos hc, ih, tokens_cons_space c rest hc]
    · rw [List.dropWhile_cons_of_neg hc]

/-- After skipping whitespace, an empty word means the input is exhausted. -/
theorem word_empty_iff (s : Bytes)
    (h : (s.dropWhile isspace).takeWhile (fun c => !isspace c) = []) :
    s.dropWhile isspace = [] := by
  induction s with
  | nil => rfl
  | cons c rest ih =>
    by_cases hc : isspace c = true
    · rw [List.dropWhile_cons_of_pos hc] at h ⊢
      exact ih h
    · have hc2 : isspace c = false := by simpa using hc
      rw [List.dropWhile_cons_of_neg hc] at h
      simp [hc2] at h

/-- One extraction takes the first token (the empty string when there is
none) and leaves the others in the stream. -/
theorem extract_tokens (s : Bytes) :
    (extract s).1 = (tokens s).headD [] ∧ tokens (extract s).2 = (tokens s).tail := by
  unfold extract
  simp only []
  rw [← tokens_dropWhile_space s]
  cases hw : (s.dropWhile isspace).takeWhile (fun c => !isspace c) with
  | nil =>
    have hnil := word_empty_iff s hw
    rw [hnil]
    exact ⟨rfl, rfl⟩
  | cons x w =>
    rw [tokens_word (s.dropWhile isspace), hw]
    exact ⟨rfl, rfl⟩

/-- The parsed request is made of the first three tokens of the stream. -/
theorem parse_request_tokens (stream : Bytes) :
    parse_request stream
      = { method := (tokens stream).getD 0 [],
          path := (tokens stream).getD 1 [],
          http_version := (tokens stream).getD 2 [] } := by
  have h1 := extract_tokens stream
  have h2 := extract_tokens (extract stream).2
  have h3 := extract_tokens (extract (extract stream).2).2
  rw [h1.2] at h2
  rw [h2.2] at h3
  have hparse : parse_request stream
      = { method := (extract stream).1,
          path := (extract (extract stream).2).1,
          http_version := (extract (extract (extract stream).2).2).1 } := rfl
  rw [hparse, h1.1, h2.1, h3.1]
  cases tokens stream with
  | nil => rfl
  | cons a t1 =>
    cases t1 with
    | nil => rfl
    | cons b t2 =>
      cases t2 with
      | nil => rfl
      | cons c t3 => rfl

theorem splitOnP_append_space (a b : Bytes) (c : Char) (hc : isspace c = true) :
    (a ++ c :: b).splitOnP isspace = a.splitOnP isspace ++ b.splitOnP isspace := by
  induction a with
  | nil => simp [hc]
  | cons x rest ih =>
    rw [List.cons_append, List.splitOnP_cons, List.splitOnP_cons, ih]
    by_cases hx : isspace x = true
    · simp [hx]
    · rw [if_neg hx, if_neg hx]
      cases hsplit : rest.splitOnP isspace with
      | nil => exact absurd hsplit (List.splitOnP_ne_nil isspace rest)
      | cons w ws => rfl

theorem tokens_append_space (a b : Bytes) (c : Char) (hc : isspace c = true) :
    tokens (a ++ c :: b) = tokens a ++ tokens b := by
  unfold tokens
  rw [splitOnP_append_space a b c hc, List.filter_append]

/-- A stream whose first part holds three tokens and is followed by
whitespace parses as that first part alone. -/
theorem parse_request_prefix (line rest : Bytes) (c : Char) (hc : isspace c = true)
    (h3 : 3 ≤ (tokens line).length) :
    parse_request (line ++ c :: rest) = parse_request line := by
  rw [parse_request_tokens, parse_request_tokens, tokens_append_space line rest c hc,
    List.getD_append _ _ _ 0 (by omega), List.getD_append _ _ _ 1 (by omega),
    List.getD_append _ _ _ 2 (by omega)]

theorem c_str_of_full (line : Bytes)
    (h : (line.takeWhile (fun c => c != '\x00')).length = line.length) :
    line.takeWhile (fun c => c != '\x00') = line := by
  have hsplit := List.takeWhile_append_dropWhile (fun c => c != '\x00') line
  have hlen := congrArg List.length hsplit
  rw [List.length_append, h] at hlen
  have hdrop : line.dropWhile (fun c => c != '\x00') = [] :=
    List.length_eq_zero.mp (by omega)
  rw [hdrop, List.append_nil] at hsplit
  exact hsplit

/-- With three tokens on the first line, what follows the first line feed
does not reach the parsed request. -/
theorem read_request_append (line rest : Bytes) (h3 : 3 ≤ (tokens line).length) :
    read_request (line ++ '\n' :: rest) = read_request line := by
  unfold read_request
  rw [List.take_append_eq_append_take]
  by_cases hlong : BUFFER_SIZE - 1 ≤ line.length
  · have hzero : BUFFER_SIZE - 1 - line.length = 0 := by omega
    rw [hzero, List.take_zero, List.append_nil]
  · have hpos : BUFFER_SIZE - 1 - line.length = (BUFFER_SIZE - 1 - line.length - 1) + 1 := by
      omega
    rw [hpos, List.take_succ_cons, List.take_of_length_le (by omega)]
    unfold c_str
    rw [List.takeWhile_append]
    by_cases hfull : (line.takeWhile (fun c => c != '\x00')).length = line.length
    · rw [if_pos hfull, c_str_of_full line hfull,
        List.takeWhile_cons_of_pos (by decide)]
      exact parse_request_prefix line _ '\n' (by decide) h3
    · rw [if_neg hfull]

theorem read_request_first_line (received : Bytes)
    (h3 : 3 ≤ (tokens (first_line received)).length) :
    read_request received = read_request (first_line received) := by
  have hsplit : first_line received ++ received.dropWhile (fun c => c != '\n') = received :=
    List.takeWhile_append_dropWhile (fun c => c != '\n') received
  cases htail : received.dropWhile (fun c => c != '\n') with
  | nil =>
    rw [htail, List.append_nil] at hsplit
    rw [hsplit]
  | cons c rest =>
    have hc : c = '\n' := by
      have hhead := List.head_dropWhile_not (fun c => c != '\n') received
        (by rw [htail]; exact List.cons_ne_nil c rest)
      simp only [htail, List.head_cons] at hhead
      simpa using hhead
    rw [htail, hc] at hsplit
    have hrun := read_request_append (first_line received) rest h3
    rw [hsplit] at hrun
    exact hrun

/-- C8 as stated fails: `>>` runs over line breaks, so a field missing from
the first line is taken from the next line, and two inputs with the same
first line `GET` get different responses. -/
theorem first_line_does_not_determine_response :
    (¬ ∀ (fs : FileSystem) (send : SendOracle) (bytes_read : Int) (r1 r2 : Bytes),
        0 < bytes_read → first_line r1 = first_line r2 →
        sent (handle_client fs send bytes_read r1) = sent (handle_client fs send bytes_read r2))
    ∧ tokens (first_line "GET\r\n/a.html\r\n".toList) = ["GET".toList]
    ∧ (read_request "GET\r\n/a.html\r\n".toList).path = "/a.html".toList := by
  refine ⟨?_, by decide, by decide⟩
  intro h
  have hsame := h page_fs send_all 14 "GET\r\n/a.html\r\n".toList "GET\r\n/b.html\r\n".toList
    (by decide) (by decide)
  revert hsame
  decide

/-- C8 (amended): the parsed method, target and version are the first three
whitespace-separated tokens of the C string in the buffer (line breaks are
whitespace), the empty string where there is no such token; and two inputs
with the same first line holding at least three tokens have the same
request and the same run. -/
theorem request_from_first_tokens :
    (∀ received : Bytes,
      read_request received
        = { method := (tokens (c_str (received.take (BUFFER_SIZE - 1)))).getD 0 [],
            path := (tokens (c_str (received.take (BUFFER_SIZE - 1)))).getD 1 [],
            http_version := (tokens (c_str (received.take (BUFFER_SIZE - 1)))).getD 2 [] })
    ∧ (∀ (fs : FileSystem) (send : SendOracle) (bytes_read : Int) (r1 r2 : Bytes),
        first_line r1 = first_line r2 → 3 ≤ (tokens (first_line r1)).length →
        read_request r1 = read_request r2
        ∧ handle_client fs send bytes_read r1 = handle_client fs send bytes_read r2) := by
  refine ⟨fun received => parse_request_tokens _, ?_⟩
  intro fs send bytes_read r1 r2 hline h3
  have hreq : read_request r1 = read_request r2 := by
    rw [read_request_first_line r1 h3, read_request_first_line r2 (hline ▸ h3), hline]
  refine ⟨hreq, ?_⟩
  unfold handle_client
  rw [hreq]

/-- Witness of C8: the same request line followed by different headers. -/
theorem request_from_first_tokens_witness :
    read_request "GET /a.html HTTP/1.1\r\nHost: a\r\n\r\n".toList
      = read_request "GET /a.html HTTP/1.1\r\nHost: b\r\nAccept: c\r\n\r\n".toList
    ∧ handle_client page_fs send_all 33 "GET /a.html HTTP/1.1\r\nHost: a\r\n\r\n".toList
      = handle_client page_fs send_all 33
          "GET /a.html HTTP/1.1\r\nHost: b\r\nAccept: c\r\n\r\n".toList :=
  request_from_first_tokens.2 page_fs send_all 33
    "GET /a.html HTTP/1.1\r\nHost: a\r\n\r\n".toList
    "GET /a.html HTTP/1.1\r\nHost: b\r\nAccept: c\r\n\r\n".toList (by decide) (by decide)

/-- The exit paths of the handler after a successful read, each with the run
it produces: 405, 301, 403, 404, 204 and 200. -/
theorem respond_cases (fs : FileSystem) (send : SendOracle) (method target version : Bytes) :
    ((method ≠ GET ∧ method ≠ OPTIONS)
      ∧ respond fs send method target version
        = [Event.log method target version 405 0,
           Event.send response_405 (send 0 response_405), Event.close])
    ∨ (no_trailing_slash (sanitize target) = true ∧ fs.is_dir (sanitize target) = true
      ∧ respond fs send method target version
        = [Event.stat (sanitize target),
           Event.send (response_301 (sanitize target)) (send 0 (response_301 (sanitize target))),
           Event.log method target version 301 0, Event.close])
    ∨ (has_dotdot (index_substitute (sanitize target)) = true
      ∧ respond fs send method target version
        = probe (sanitize target)
          ++ [Event.log method target version 403 0,
              Event.send response_403 (send 0 response_403), Event.close])
    ∨ (has_dotdot (index_substitute (sanitize target)) = false
      ∧ fs.open_file (index_substitute (sanitize target)) = none
      ∧ respond fs send method target version
        = probe (sanitize target)
          ++ [Event.open_file (index_substitute (sanitize target)),
              Event.log method target version 404 0,
              Event.send response_404 (send 0 response_404), Event.close])
    ∨ (has_dotdot (index_substitute (sanitize target)) = false
      ∧ (∃ file, fs.open_file (index_substitute (sanitize target)) = some file)
      ∧ method = OPTIONS
      ∧ respond fs send method target version
        = probe (sanitize target)
          ++ [Event.open_file (index_substitute (sanitize target)),
              Event.log method target version 204 0,
              Event.send response_204 (send 0 response_204), Event.close,
              Event.close_file])
    ∨ (has_dotdot (index_substitute (sanitize target)) = false
      ∧ method = GET
      ∧ ∃ file, fs.open_file (index_substitute (sanitize target)) = some file
        ∧ respond fs send method target version
          = probe (sanitize target)
            ++ [Event.open_file (index_substitute (sanitize target)),
                Event.log method target version 200 file.tellg_end,
                Event.send
                  (header_200 file.tellg_end
                    (get_content_type (index_substitute (sanitize target))))
                  (send 0 (header_200 file.tellg_end
                    (get_content_type (index_substitute (sanitize target)))))]
            ++ stream_file send 1 file.data ++ [Event.close_file, Event.close]) := by
  by_cases hgate : method ≠ GET ∧ method ≠ OPTIONS
  · left
    refine ⟨hgate, ?_⟩
    unfold respond
    rw [if_pos hgate]
  · right
    cases hcheck : (no_trailing_slash (sanitize target) && fs.is_dir (sanitize target))
    · right
      cases hguard : has_dotdot (index_substitute (sanitize target))
      · right
        cases hopen : fs.open_file (index_substitute (sanitize target)) with
        | none =>
          left
          refine ⟨rfl, rfl, ?_⟩
          unfold respond
          rw [if_neg hgate]
          simp only [hcheck, hguard, hopen, Bool.false_eq_true, if_false, probe]
        | some file =>
          right
          by_cases hopt : method = OPTIONS
          · left
            refine ⟨rfl, ⟨file, rfl⟩, hopt, ?_⟩
            unfold respond
            rw [if_neg hgate]
            simp only [hcheck, hguard, hopen, Bool.false_eq_true, if_false, if_pos hopt, probe]
          · right
            have hget : method = GET := by
              by_contra hne
              exact hgate ⟨hne, hopt⟩
            refine ⟨rfl, hget, file, rfl, ?_⟩
            unfold respond
            rw [if_neg hgate]
            simp only [hcheck, hguard, hopen, Bool.false_eq_true, if_false, if_neg hopt, probe]
      · left
        refine ⟨rfl, ?_⟩
        unfold respond
        rw [if_neg hgate]
        simp only [hcheck, hguard, Bool.false_eq_true, if_false, if_true, probe]
    · left
      have hboth := Bool.and_eq_true_iff.mp hcheck
      refine ⟨hboth.1, hboth.2, ?_⟩
      unfold respond
      rw [if_neg hgate]
      simp only [hcheck, if_true]

/-- C17: when the initial `read` returns zero or a negative count the run is
the single action `close`: nothing is sent, nothing is logged, no `stat` and
no file open happens. -/
theorem read_failure_closes (fs : FileSystem) (send : SendOracle) (bytes_read : Int)
    (received : Bytes) (hread : bytes_read ≤ 0) :
    handle_client fs send bytes_read received = [Event.close]
    ∧ sent (handle_client fs send bytes_read received) = []
    ∧ accepted (handle_client fs send bytes_read received) = []
    ∧ logs (handle_client fs send bytes_read received) = []
    ∧ lookups (handle_client fs send bytes_read received) = [] := by
  have hrun : handle_client fs send bytes_read received = [Event.close] := by
    unfold handle_client
    rw [if_pos hread]
  rw [hrun]
  exact ⟨rfl, rfl, rfl, rfl, rfl⟩

/-- Witness of C17: `read` returns -1 on a socket whose buffer is untouched,
and 0 when the peer has closed. -/
theorem read_failure_closes_witness :
    handle_client index_fs send_all (-1) [] = [Event.close]
    ∧ handle_client index_fs send_all 0 "GET / HTTP/1.1\r\n".toList = [Event.close] :=
  ⟨(read_failure_closes index_fs send_all (-1) [] (by decide)).1,
   (read_failure_closes index_fs send_all 0 "GET / HTTP/1.1\r\n".toList (by decide)).1⟩

theorem strip_leading_slashes_replicate (n : Nat) (path : Bytes) :
    strip_leading_slashes (List.replicate n '/' ++ path) = strip_leading_slashes path := by
  induction n with
  | zero => rfl
  | succ n ih =>
    have hstep : strip_leading_slashes ('/' :: (List.replicate n '/' ++ path))
        = strip_leading_slashes (List.replicate n '/' ++ path) := by
      simp [strip_leading_slashes]
    rw [List.replicate_succ, List.cons_append, hstep]
    exact ih

theorem strip_leading_slashes_head (path : Bytes) :
    (strip_leading_slashes path).head? ≠ some '/' := by
  induction path with
  | nil => simp [strip_leading_slashes]
  | cons c rest ih =>
    unfold strip_leading_slashes
    by_cases hc : c = '/'
    · rw [if_pos hc]
      exact ih
    · rw [if_neg hc]
      simpa using hc

theorem not_mem_replicate_slash (n : Nat) (c : Char) (hc : c ≠ '/') :
    c ∉ List.replicate n '/' := by
  intro hm
  exact hc (List.eq_of_mem_replicate hm)

theorem cut_at_eq_takeWhile (path : Bytes) (c : Char) :
    cut_at path c = path.takeWhile (fun x => x != c) := by
  induction path with
  | nil => rfl
  | cons x rest ih =>
    rw [cut_at_cons]
    by_cases hx : x = c
    · simp [hx]
    · rw [if_neg hx, ih]
      simp [hx]

theorem strip_leading_slashes_eq_dropWhile (path : Bytes) :
    strip_leading_slashes path = path.dropWhile (fun x => x == '/') := by
  induction path with
  | nil => rfl
  | cons x rest ih =>
    unfold strip_leading_slashes
    by_cases hx : x = '/'
    · rw [if_pos hx, ih]
      simp [hx]
    · rw [if_neg hx]
      simp [hx]

/-- What `strip_leading_slashes` removes is a run of slashes at the front. -/
theorem strip_leading_slashes_removed (path : Bytes) :
    ∃ k : Nat, path = List.replicate k '/' ++ strip_leading_slashes path := by
  induction path with
  | nil => exact ⟨0, rfl⟩
  | cons x rest ih =>
    by_cases hx : x = '/'
    · obtain ⟨k, hk⟩ := ih
      refine ⟨k + 1, ?_⟩
      have hstep : strip_leading_slashes (x :: rest) = strip_leading_slashes rest := by
        simp [strip_leading_slashes, hx]
      rw [hstep, List.replicate_succ, List.cons_append, ← hk, hx]
    · refine ⟨0, ?_⟩
      have hstep : strip_leading_slashes (x :: rest) = x :: rest := by
        simp [strip_leading_slashes, hx]
      rw [hstep]
      rfl

/-- C14: the sanitized path is the target, cut at the first `?` and at the
first `#`, with the whole run of slashes at its front removed and nothing
else: it never begins with `/`, and any number of slashes put in front of a
target leaves it unchanged. -/
theorem leading_slashes_removed (n : Nat) (t : Bytes) :
    sanitize (List.replicate n '/' ++ t) = sanitize t
    ∧ (sanitize t).head? ≠ some '/'
    ∧ (sanitize (List.replicate n '/' ++ t)).head? ≠ some '/'
    ∧ sanitize t
      = ((t.takeWhile (fun c => c != '?')).takeWhile (fun c => c != '#')).dropWhile
          (fun c => c == '/')
    ∧ (∃ k : Nat,
        (t.takeWhile (fun c => c != '?')).takeWhile (fun c => c != '#')
          = List.replicate k '/' ++ sanitize t)
    ∧ (('?' ∉ t ∧ '#' ∉ t ∧ t.head? ≠ some '/') →
        sanitize (List.replicate n '/' ++ t) = t)
    ∧ sanitize "///a//b/".toList = "a//b/".toList
    ∧ sanitize "/docs".toList = "docs".toList := by
  have heq : sanitize (List.replicate n '/' ++ t) = sanitize t := by
    unfold sanitize
    rw [cut_at_append _ t '?' (not_mem_replicate_slash n '?' (by decide)),
      cut_at_append _ _ '#' (not_mem_replicate_slash n '#' (by decide)),
      strip_leading_slashes_replicate]
  have hform : sanitize t
      = ((t.takeWhile (fun c => c != '?')).takeWhile (fun c => c != '#')).dropWhile
          (fun c => c == '/') := by
    unfold sanitize
    rw [strip_leading_slashes_eq_dropWhile, cut_at_eq_takeWhile, cut_at_eq_takeWhile]
  refine ⟨heq, strip_leading_slashes_head _, ?_, hform, ?_, ?_, by decide, by decide⟩
  · rw [heq]
    exact strip_leading_slashes_head _
  · obtain ⟨k, hk⟩ := strip_leading_slashes_removed (cut_at (cut_at t '?') '#')
    refine ⟨k, ?_⟩
    have hsan : sanitize t = strip_leading_slashes (cut_at (cut_at t '?') '#') := rfl
    rw [hsan, ← cut_at_eq_takeWhile, ← cut_at_eq_takeWhile]
    exact hk
  · rintro ⟨hq, hf, hhead⟩
    rw [heq]
    unfold sanitize
    rw [cut_at_of_not_mem t '?' hq, cut_at_of_not_mem t '#' hf]
    cases t with
    | nil => rfl
    | cons c rest =>
      have hc : ¬ c = '/' := by simpa using hhead
      simp [strip_leading_slashes, hc]

/-- Witness of C14: four slashes in front of `a/b.txt`. -/
theorem leading_slashes_removed_witness :
    sanitize (List.replicate 4 '/' ++ "a/b.txt".toList) = "a/b.txt".toList :=
  (leading_slashes_removed 4 "a/b.txt".toList).2.2.2.2.2.1 (by decide)

theorem send_chunk_sends (send : SendOracle) :
    ∀ (fuel i : Nat) (chunk : Bytes) (sent_total : Nat),
      ∀ e ∈ (send_chunk send fuel i chunk sent_total).1, is_send e = true := by
  intro fuel
  induction fuel with
  | zero =>
    intro i chunk sent_total e he
    simp [send_chunk] at he
  | succ fuel ih =>
    intro i chunk sent_total e he
    unfold send_chunk at he
    by_cases hlt : sent_total < chunk.length
    · by_cases hfail : send i (chunk.drop sent_total) ≤ 0
      · simp only [if_pos hlt, if_pos hfail, List.mem_singleton] at he
        rw [he]
        rfl
      · simp only [if_pos hlt, if_neg hfail, List.mem_cons] at he
        rcases he with he | he
        · rw [he]
          rfl
        · exact ih _ _ _ e he
    · simp [if_neg hlt] at he

theorem stream_loop_sends (send : SendOracle) :
    ∀ (fuel i : Nat) (rest : Bytes),
      ∀ e ∈ (stream_loop send fuel i rest).1, is_send e = true := by
  intro fuel
  induction fuel with
  | zero =>
    intro i rest e he
    simp [stream_loop] at he
  | succ fuel ih =>
    intro i rest e he
    unfold stream_loop at he
    have hchunk : ∀ e ∈ (if 0 < (rest.take CHUNK_SIZE).length then
          send_chunk send (rest.take CHUNK_SIZE).length i (rest.take CHUNK_SIZE) 0
         else ([], i)).1, is_send e = true := by
      intro e he
      by_cases hpos : 0 < (rest.take CHUNK_SIZE).length
      · rw [if_pos hpos] at he
        exact send_chunk_sends send _ _ _ _ e he
      · rw [if_neg hpos] at he
        simp at he
    by_cases hlast : (rest.take CHUNK_SIZE).length < CHUNK_SIZE
    · simp only [if_pos hlast] at he
      exact hchunk e he
    · simp only [if_neg hlast, List.mem_append] at he
      rcases he with he | he
      · exact hchunk e he
      · exact ih _ _ e he

/-- The streaming loop acts through `send` only. -/
theorem stream_file_sends (send : SendOracle) (i : Nat) (data : Bytes) :
    ∀ e ∈ stream_file send i data, is_send e = true :=
  stream_loop_sends send _ i data

theorem count_close_of_sends (run : List Event) (h : ∀ e ∈ run, is_send e = true) :
    run.count Event.close = 0 := by
  rw [List.count_eq_zero]
  intro hm
  exact absurd (h _ hm) (by decide)

theorem connection_actions_of_sends (run : List Event) (h : ∀ e ∈ run, is_send e = true) :
    connection_actions run = run := by
  unfold connection_actions
  rw [List.filter_eq_self]
  intro e he
  have hs := h e he
  cases e <;> first | rfl | exact absurd hs (by simp [is_send])

theorem connection_actions_append (a b : List Event) :
    connection_actions (a ++ b) = connection_actions a ++ connection_actions b := by
  unfold connection_actions
  exact List.filter_append a b

theorem connection_actions_probe (path : Bytes) : connection_actions (probe path) = [] := by
  unfold probe
  split <;> rfl

theorem count_close_probe (path : Bytes) : (probe path).count Event.close = 0 := by
  unfold probe
  split <;> simp

/-- On the socket, a run after a successful read is: one `send` of a status
response, the `send` calls of the streaming loop when the status is 200,
and one `close`. -/
theorem respond_connection_actions (fs : FileSystem) (send : SendOracle)
    (method target version : Bytes) :
    (respond fs send method target version).count Event.close = 1
    ∧ ∃ (head : Bytes) (result : Int) (body : List Event),
        connection_actions (respond fs send method target version)
          = Event.send head result :: body ++ [Event.close]
        ∧ is_status_response head
        ∧ (body = []
          ∨ ∃ file, fs.open_file (index_substitute (sanitize target)) = some file
              ∧ head = header_200 file.tellg_end
                  (get_content_type (index_substitute (sanitize target)))
              ∧ body = stream_file send 1 file.data) := by
  rcases respond_cases fs send method target version with
    ⟨_, hrun⟩ | ⟨_, _, hrun⟩ | ⟨_, hrun⟩ | ⟨_, _, hrun⟩ | ⟨_, _, _, hrun⟩
      | ⟨_, _, file, hopen, hrun⟩
  · rw [hrun]
    exact ⟨by simp, response_405, _, [], rfl, Or.inl rfl, Or.inl rfl⟩
  · rw [hrun]
    exact ⟨by simp, response_301 (sanitize target), _, [], rfl,
      Or.inr (Or.inl ⟨_, rfl⟩), Or.inl rfl⟩
  · rw [hrun, List.count_append, count_close_probe, connection_actions_append,
      connection_actions_probe]
    exact ⟨by simp, response_403, _, [], rfl, Or.inr (Or.inr (Or.inl rfl)), Or.inl rfl⟩
  · rw [hrun, List.count_append, count_close_probe, connection_actions_append,
      connection_actions_probe]
    exact ⟨by simp, response_404, _, [], rfl,
      Or.inr (Or.inr (Or.inr (Or.inl rfl))), Or.inl rfl⟩
  · rw [hrun, List.count_append, count_close_probe, connection_actions_append,
      connection_actions_probe]
    exact ⟨by simp, response_204, _, [], rfl,
      Or.inr (Or.inr (Or.inr (Or.inr (Or.inl rfl)))), Or.inl rfl⟩
  · have hsends := stream_file_sends send 1 file.data
    rw [hrun]
    refine ⟨?_, header_200 file.tellg_end
      (get_content_type (index_substitute (sanitize target))),
      send 0 (header_200 file.tellg_end
        (get_content_type (index_substitute (sanitize target)))),
      stream_file send 1 file.data, ?_,
      Or.inr (Or.inr (Or.inr (Or.inr (Or.inr ⟨_, _, rfl⟩)))),
      Or.inr ⟨file, hopen, rfl, rfl⟩⟩
    · rw [List.count_append, List.count_append, List.count_append, count_close_probe,
        count_close_of_sends _ hsends]
      simp
    · rw [connection_actions_append, connection_actions_append, connection_actions_append,
        connection_actions_probe, connection_actions_of_sends _ hsends]
      rfl

/-- C11: on every exit path the run holds exactly one `close` of the client
socket and it is the last action on that socket; after a successful read the
socket actions are one `send` of a status response (405, 301, 403, 404, 204
or the 200 header), then only the `send` calls of the streaming loop when
the status is 200, then that `close`. -/
theorem closed_once_after_one_status (fs : FileSystem) (send : SendOracle)
    (bytes_read : Int) (received : Bytes) :
    (handle_client fs send bytes_read received).count Event.close = 1
    ∧ (connection_actions (handle_client fs send bytes_read received)).getLast?
      = some Event.close
    ∧ (bytes_read ≤ 0 → handle_client fs send bytes_read received = [Event.close])
    ∧ (0 < bytes_read →
        ∃ (head : Bytes) (result : Int) (body : List Event),
          connection_actions (handle_client fs send bytes_read received)
            = Event.send head result :: body ++ [Event.close]
          ∧ is_status_response head
          ∧ (∀ e ∈ body, is_send e = true)
          ∧ (body = []
            ∨ ∃ file,
                fs.open_file (index_substitute (sanitize (read_request received).path))
                  = some file
                ∧ head = header_200 file.tellg_end
                    (get_content_type
                      (index_substitute (sanitize (read_request received).path)))
                ∧ body = stream_file send 1 file.data)) := by
  by_cases hread : bytes_read ≤ 0
  · have hrun : handle_client fs send bytes_read received = [Event.close] := by
      unfold handle_client
      rw [if_pos hread]
    rw [hrun]
    exact ⟨by simp, rfl, fun _ => rfl, fun hpos => absurd hpos (not_lt.mpr hread)⟩
  · have hpos : 0 < bytes_read := not_le.mp hread
    rw [handle_client_pos fs send bytes_read received hpos]
    obtain ⟨hcount, head, result, body, hactions, hstatus, hbody⟩ :=
      respond_connection_actions fs send (read_request received).method
        (read_request received).path (read_request received).http_version
    refine ⟨hcount, ?_, fun hle => absurd hle hread, fun _ =>
      ⟨head, result, body, hactions, hstatus, ?_, hbody⟩⟩
    · rw [hactions, List.getLast?_append]
      rfl
    · rcases hbody with hnil | ⟨file, _, _, hstream⟩
      · rw [hnil]
        intro e he
        exact absurd he (List.not_mem_nil e)
      · rw [hstream]
        exact stream_file_sends send 1 file.data

/-- Witness of C11: a 200 run (header, one chunk, close) and a failed read. -/
theorem closed_once_after_one_status_witness :
    connection_actions (handle_client page_fs send_all 22 "GET /a.html HTTP/1.1\r\n".toList)
      = [Event.send
           "HTTP/1.1 200 OK\r\nContent-Length: 3\r\nContent-Type: text/html\r\n\r\n".toList 63,
         Event.send "abc".toList 3, Event.close]
    ∧ (∃ (head : Bytes) (result : Int) (body : List Event),
        connection_actions (handle_client page_fs send_all 22 "GET /a.html HTTP/1.1\r\n".toList)
          = Event.send head result :: body ++ [Event.close]
        ∧ is_status_response head)
    ∧ handle_client page_fs send_all 0 [] = [Event.close] :=
  ⟨by decide,
   (fun ⟨head, result, body, hactions, hstatus, _⟩ => ⟨head, result, body, hactions, hstatus⟩)
     ((closed_once_after_one_status page_fs send_all 22
        "GET /a.html HTTP/1.1\r\n".toList).2.2.2 (by decide)),
   (closed_once_after_one_status page_fs send_all 0 []).2.2.1 (by decide)⟩

theorem logs_append (a b : List Event) : logs (a ++ b) = logs a ++ logs b := by
  induction a with
  | nil => rfl
  | cons e rest ih => cases e <;> simp [logs, ih]

theorem logs_probe (path : Bytes) : logs (probe path) = [] := by
  unfold probe
  split <;> rfl

theorem logs_of_sends (run : List Event) (h : ∀ e ∈ run, is_send e = true) : logs run = [] := by
  induction run with
  | nil => rfl
  | cons e rest ih =>
    have he := h e (List.mem_cons_self e rest)
    have hrest : ∀ x ∈ rest, is_send x = true := fun x hx => h x (List.mem_cons_of_mem e hx)
    cases e <;> first | simpa [logs] using ih hrest | exact absurd he (by simp [is_send])

theorem sent_head_of_sends_after (path : Bytes) (pre : List Event) (data : Bytes) (result : Int)
    (rest : List Event) (hpre : sent pre = []) :
    (sent (probe path ++ (pre ++ Event.send data result :: rest))).head? = some data := by
  rw [sent_append, sent_probe, List.nil_append, sent_append, hpre]
  rfl

/-- The 200 header for any reported size, written out. -/
theorem header_200_text (file_size : Int) (content_type : Bytes) :
    header_200 file_size content_type
      = "HTTP/1.1 200 OK\r\nContent-Length: ".toList ++ show_int file_size
          ++ "\r\nContent-Type: ".toList ++ content_type ++ "\r\n\r\n".toList := by
  simp only [header_200, List.append_assoc]
  rfl

theorem status_prefix_301 (path : Bytes) :
    ("HTTP/1.1 ".toList ++ Nat.toDigits 10 301 ++ " ".toList) <+: response_301 path := by
  refine ⟨"Moved Permanently\r\nLocation: /".toList ++ path
    ++ "/\r\nContent-Length: 0\r\n\r\n".toList, ?_⟩
  rw [response_301_eq]
  simp only [← List.append_assoc]
  rfl

theorem status_prefix_200 (file_size : Int) (content_type : Bytes) :
    ("HTTP/1.1 ".toList ++ Nat.toDigits 10 200 ++ " ".toList)
      <+: header_200 file_size content_type := by
  refine ⟨"OK\r\nContent-Length: ".toList ++ show_int file_size
    ++ "\r\nContent-Type: ".toList ++ content_type ++ "\r\n\r\n".toList, ?_⟩
  rw [header_200_text]
  simp only [← List.append_assoc]
  rfl

/-- C12 as stated fails for a file that is not regular: `GET /pipe` on a
named pipe, where `seekg` fails and `tellg` reports -1, logs `200 -1` and
sends `Content-Length: -1`, which is not the byte count of any file. -/
theorem logged_size_not_always_file_size :
    (¬ ∀ (fs : FileSystem) (send : SendOracle) (bytes_read : Int) (received : Bytes)
        (file : Stream) (size : Int),
        0 < bytes_read →
        fs.open_file (index_substitute (sanitize (read_request received).path)) = some file →
        logs (handle_client fs send bytes_read received) = [(200, size)] →
        size = (file.data.length : Int))
    ∧ handle_client pipe_fs send_all 20 "GET /pipe HTTP/1.1\r\n".toList
      = [Event.stat "pipe".toList, Event.open_file "pipe".toList,
         Event.log "GET".toList "/pipe".toList "HTTP/1.1".toList 200 (-1),
         Event.send
           "HTTP/1.1 200 OK\r\nContent-Length: -1\r\nContent-Type: application/octet-stream\r\n\r\n".toList
           79,
         Event.close_file, Event.close] := by
  refine ⟨?_, by decide⟩
  intro h
  have hsize := h pipe_fs send_all 20 "GET /pipe HTTP/1.1\r\n".toList
    { tellg_end := -1, data := [] } (-1) (by decide) (by decide) (by decide)
  revert hsize
  decide

/-- C12 (amended): after a successful read the run holds exactly one log
line; its status is the status on the status line of the response sent; its
byte count is 0 for 405, 301, 403, 404 and 204; for 200 it is the end
position reported for the file the run opened, it is the number printed in
the `Content-Length` header, and for a regular file it is the byte length of
the file. -/
theorem one_log_line_matches_response (fs : FileSystem) (send : SendOracle)
    (bytes_read : Int) (received : Bytes) (hread : 0 < bytes_read) :
    ∃ (status : Nat) (size : Int) (head : Bytes),
      logs (handle_client fs send bytes_read received) = [(status, size)]
      ∧ (sent (handle_client fs send bytes_read received)).head? = some head
      ∧ ("HTTP/1.1 ".toList ++ Nat.toDigits 10 status ++ " ".toList) <+: head
      ∧ ((status = 405 ∧ size = 0
            ∧ head = "HTTP/1.1 405 Method Not Allowed\r\nContent-Length: 0\r\n\r\n".toList)
          ∨ (status = 301 ∧ size = 0
            ∧ head = "HTTP/1.1 301 Moved Permanently\r\nLocation: /".toList
                ++ sanitize (read_request received).path
                ++ "/\r\nContent-Length: 0\r\n\r\n".toList)
          ∨ (status = 403 ∧ size = 0
            ∧ head = "HTTP/1.1 403 Forbidden\r\nContent-Length: 0\r\n\r\n".toList)
          ∨ (status = 404 ∧ size = 0
            ∧ head = "HTTP/1.1 404 Not Found\r\nContent-Length: 0\r\n\r\n".toList)
          ∨ (status = 204 ∧ size = 0
            ∧ head = ("HTTP/1.1 204 No Content\r\nAllow: GET, OPTIONS\r\n"
                ++ "Access-Control-Allow-Origin: *\r\n"
                ++ "Access-Control-Allow-Methods: GET, OPTIONS\r\n\r\n").toList)
          ∨ (status = 200
            ∧ ∃ file : Stream,
                fs.open_file (index_substitute (sanitize (read_request received).path))
                  = some file
                ∧ size = file.tellg_end
                ∧ head = "HTTP/1.1 200 OK\r\nContent-Length: ".toList
                    ++ (if size < 0 then '-' :: Nat.toDigits 10 size.natAbs
                        else Nat.toDigits 10 size.natAbs)
                    ++ "\r\nContent-Type: ".toList
                    ++ get_content_type
                        (index_substitute (sanitize (read_request received).path))
                    ++ "\r\n\r\n".toList
                ∧ (file.regular →
                    size = (file.data.length : Int)
                    ∧ head = "HTTP/1.1 200 OK\r\nContent-Length: ".toList
                        ++ Nat.toDigits 10 file.data.length
                        ++ "\r\nContent-Type: ".toList
                        ++ get_content_type
                            (index_substitute (sanitize (read_request received).path))
                        ++ "\r\n\r\n".toList))) := by
  rw [handle_client_pos fs send bytes_read received hread]
  rcases respond_cases fs send (read_request received).method (read_request received).path
      (read_request received).http_version with
    ⟨_, hrun⟩ | ⟨_, _, hrun⟩ | ⟨_, hrun⟩ | ⟨_, _, hrun⟩ | ⟨_, _, _, hrun⟩
      | ⟨_, _, file, hopen, hrun⟩
  · rw [hrun]
    exact ⟨405, 0, response_405, rfl, rfl, by decide, Or.inl ⟨rfl, rfl, rfl⟩⟩
  · rw [hrun]
    exact ⟨301, 0, response_301 (sanitize (read_request received).path), rfl, rfl,
      status_prefix_301 _, Or.inr (Or.inl ⟨rfl, rfl, response_301_eq _⟩)⟩
  · rw [hrun]
    refine ⟨403, 0, response_403, ?_, ?_, by decide,
      Or.inr (Or.inr (Or.inl ⟨rfl, rfl, rfl⟩))⟩
    · rw [logs_append, logs_probe]
      rfl
    · rw [sent_append, sent_probe]
      rfl
  · rw [hrun]
    refine ⟨404, 0, response_404, ?_, ?_, by decide,
      Or.inr (Or.inr (Or.inr (Or.inl ⟨rfl, rfl, rfl⟩)))⟩
    · rw [logs_append, logs_probe]
      rfl
    · rw [sent_append, sent_probe]
      rfl
  · rw [hrun]
    refine ⟨204, 0, response_204, ?_, ?_, by decide,
      Or.inr (Or.inr (Or.inr (Or.inr (Or.inl ⟨rfl, rfl, rfl⟩))))⟩
    · rw [logs_append, logs_probe]
      rfl
    · rw [sent_append, sent_probe]
      rfl
  · rw [hrun]
    refine ⟨200, file.tellg_end, header_200 file.tellg_end
      (get_content_type (index_substitute (sanitize (read_request received).path))),
      ?_, ?_, status_prefix_200 _ _,
      Or.inr (Or.inr (Or.inr (Or.inr (Or.inr
        ⟨rfl, file, hopen, rfl, header_200_text _ _, ?_⟩))))⟩
    · rw [logs_append, logs_append, logs_append, logs_probe,
        logs_of_sends _ (stream_file_sends send 1 file.data)]
      rfl
    · rw [List.append_assoc, List.append_assoc, sent_append, sent_probe]
      rfl
    · intro hregular
      unfold Stream.regular at hregular
      refine ⟨hregular, ?_⟩
      rw [hregular]
      exact header_200_eq _ _

/-- Witness of C12: a 200 run logs `200 3` and sends `Content-Length: 3`. -/
theorem one_log_line_matches_response_witness :
    logs (handle_client page_fs send_all 22 "GET /a.html HTTP/1.1\r\n".toList) = [(200, 3)]
    ∧ ∃ (status : Nat) (size : Int) (head : Bytes),
        logs (handle_client page_fs send_all 22 "GET /a.html HTTP/1.1\r\n".toList)
          = [(status, size)]
        ∧ (sent (handle_client page_fs send_all 22 "GET /a.html HTTP/1.1\r\n".toList)).head?
          = some head :=
  ⟨by decide,
   (fun ⟨status, size, head, hlogs, hhead, _⟩ => ⟨status, size, head, hlogs, hhead⟩)
     (one_log_line_matches_response page_fs send_all 22 "GET /a.html HTTP/1.1\r\n".toList
       (by decide))⟩

theorem has_dotdot_append (p q : Bytes) (c : Char) (hc : c ≠ '.') :
    has_dotdot (p ++ c :: q) = (has_dotdot p || has_dotdot (c :: q)) := by
  induction p with
  | nil => simp [has_dotdot]
  | cons x rest ih =>
    cases rest with
    | nil => simp [has_dotdot, hc]
    | cons y rest2 =>
      have hstep : has_dotdot (x :: y :: rest2 ++ c :: q)
          = ((x = '.' && y = '.') || has_dotdot (y :: rest2 ++ c :: q)) := by
        simp [has_dotdot]
      have hleft : has_dotdot (x :: y :: rest2)
          = ((x = '.' && y = '.') || has_dotdot (y :: rest2)) := by
        simp [has_dotdot]
      rw [hstep, ih, hleft, Bool.or_assoc]

theorem has_dotdot_append_index (path : Bytes) :
    has_dotdot (path ++ "index.html".toList) = has_dotdot path := by
  have h := has_dotdot_append path "ndex.html".toList 'i' (by decide)
  have hidx : has_dotdot ('i' :: "ndex.html".toList) = false := by decide
  rw [hidx, Bool.or_false] at h
  exact h

theorem index_substitute_of_index (path : Bytes)
    (hindex : path = [] ∨ path.getLast? = some '/') :
    index_substitute path = path ++ "index.html".toList
    ∧ no_trailing_slash path = false := by
  rcases hindex with h | h
  · rw [h]
    exact ⟨rfl, rfl⟩
  · constructor
    · simp [index_substitute, h]
    · simp [no_trailing_slash, h]

theorem get_content_type_index (path : Bytes) :
    get_content_type (path ++ "index.html".toList) = "text/html".toList := by
  have hsplit : path ++ "index.html".toList
      = (path ++ "index".toList) ++ '.' :: "html".toList := by
    rw [List.append_assoc]
    rfl
  rw [hsplit, get_content_type_eq, rfind_last_dot _ _ (by decide)]
  simp only [List.drop_left]
  decide

theorem lookups_of_sends (run : List Event) (h : ∀ e ∈ run, is_send e = true) :
    lookups run = [] := by
  induction run with
  | nil => rfl
  | cons e rest ih =>
    have he := h e (List.mem_cons_self e rest)
    have hrest : ∀ x ∈ rest, is_send x = true := fun x hx => h x (List.mem_cons_of_mem e hx)
    cases e <;> first | simpa [lookups] using ih hrest | exact absurd he (by simp [is_send])

/-- C13 as stated fails: `GET /v1..2/` has a sanitized path ending in `/`
and `v1..2/index.html` opens, yet the traversal guard answers 403 and no
file is opened. -/
theorem index_not_always_served :
    ¬ ∀ (fs : FileSystem) (send : SendOracle) (bytes_read : Int) (received : Bytes)
        (file : Stream),
        0 < bytes_read → (read_request received).method = "GET".toList →
        (sanitize (read_request received).path = []
          ∨ (sanitize (read_request received).path).getLast? = some '/') →
        fs.open_file (sanitize (read_request received).path ++ "index.html".toList)
          = some file →
        (sent (handle_client fs send bytes_read received)).head?
          = some ("HTTP/1.1 200 OK\r\nContent-Length: ".toList ++ show_int file.tellg_end
              ++ "\r\nContent-Type: text/html\r\n\r\n".toList) := by
  intro h
  have h403 : handle_client dotted_dir_fs send_all 21 "GET /v1..2/ HTTP/1.1\r\n".toList
      = [Event.log "GET".toList "/v1..2/".toList "HTTP/1.1".toList 403 0,
         Event.send "HTTP/1.1 403 Forbidden\r\nContent-Length: 0\r\n\r\n".toList 45,
         Event.close] := by decide
  have h200 := h dotted_dir_fs send_all 21 "GET /v1..2/ HTTP/1.1\r\n".toList
    { tellg_end := 3, data := "abc".toList }
    (by decide) (by decide) (by decide) (by decide)
  rw [h403] at h200
  revert h200
  decide

/-- C13 (amended): for a `GET` request whose sanitized path is empty or ends
in `/` and does not contain `..`, the only filesystem lookup is the open of
the sanitized path with `index.html` appended, and when that file opens the
response is the 200 header with `Content-Type: text/html`; the target `/`
resolves to `index.html`. -/
theorem index_served (fs : FileSystem) (send : SendOracle) (bytes_read : Int)
    (received : Bytes) (hread : 0 < bytes_read)
    (hmethod : (read_request received).method = "GET".toList)
    (hindex : sanitize (read_request received).path = []
      ∨ (sanitize (read_request received).path).getLast? = some '/')
    (hdots : has_dotdot (sanitize (read_request received).path) = false) :
    lookups (handle_client fs send bytes_read received)
      = [Event.open_file (sanitize (read_request received).path ++ "index.html".toList)]
    ∧ (∀ file : Stream,
        fs.open_file (sanitize (read_request received).path ++ "index.html".toList)
          = some file →
        (sent (handle_client fs send bytes_read received)).head?
          = some ("HTTP/1.1 200 OK\r\nContent-Length: ".toList ++ show_int file.tellg_end
              ++ "\r\nContent-Type: text/html\r\n\r\n".toList))
    ∧ sanitize "/".toList ++ "index.html".toList = "index.html".toList := by
  obtain ⟨hsub, hslash⟩ := index_substitute_of_index _ hindex
  have hguard : has_dotdot (index_substitute (sanitize (read_request received).path))
      = false := by
    rw [hsub, has_dotdot_append_index]
    exact hdots
  have hprobe : probe (sanitize (read_request received).path) = [] := by
    unfold probe
    rw [hslash]
    rfl
  have hrun := respond_at_open fs send (read_request received).method
    (read_request received).path (read_request received).http_version
    (Or.inl hmethod) (fun hn => absurd hn (by rw [hslash]; decide)) hguard
  have hnotopt : ¬ ((read_request received).method = OPTIONS) := by
    rw [hmethod]
    decide
  rw [hprobe, hsub] at hrun
  rw [handle_client_pos fs send bytes_read received hread, hrun]
  refine ⟨?_, ?_, by decide⟩
  · cases hopen : fs.open_file (sanitize (read_request received).path ++ "index.html".toList) with
    | none => rfl
    | some file =>
      simp only [if_neg hnotopt]
      rw [lookups_append, lookups_append, lookups_append,
        lookups_of_sends _ (stream_file_sends send 1 file.data)]
      rfl
  · intro file hopen
    rw [hopen]
    simp only [if_neg hnotopt]
    rw [get_content_type_index, header_200_text]
    simp only [List.append_assoc, List.nil_append]
    rfl

/-- Witness of C13: `GET /` with a 50-byte `index.html`. -/
theorem index_served_witness :
    lookups (handle_client index_fs send_all 16 "GET / HTTP/1.1\r\n".toList)
      = [Event.open_file "index.html".toList]
    ∧ (sent (handle_client index_fs send_all 16 "GET / HTTP/1.1\r\n".toList)).head?
      = some "HTTP/1.1 200 OK\r\nContent-Length: 50\r\nContent-Type: text/html\r\n\r\n".toList :=
  have h := index_served index_fs send_all 16 "GET / HTTP/1.1\r\n".toList
    (by decide) (by decide) (by decide) (by decide)
  ⟨h.1.trans (by decide),
   (h.2.1 { tellg_end := 50, data := List.replicate 50 'x' } (by decide)).trans (by decide)⟩

theorem probe_no_send (path : Bytes) : ∀ e ∈ probe path, is_send e = false := by
  intro e he
  unfold probe at he
  split at he
  · rw [List.mem_singleton.mp he]
    rfl
  · exact absurd he (List.not_mem_nil e)

theorem no_send_append (a b : List Event) (ha : ∀ e ∈ a, is_send e = false)
    (hb : ∀ e ∈ b, is_send e = false) : ∀ e ∈ a ++ b, is_send e = false := by
  intro e he
  rcases List.mem_append.mp he with h | h
  · exact ha e h
  · exact hb e h

/-- The shape of every run after a successful read: events that are not
`send` calls, one `send` of the response head, the streaming loop over the
body when there is one, and events that are not `send` calls. Only the
results recorded in the `send` events and the streaming depend on the socket. -/
theorem respond_shape (fs : FileSystem) (method target version : Bytes) :
    ∃ (pre : List Event) (head : Bytes) (body : Option Bytes) (post : List Event),
      (∀ e ∈ pre, is_send e = false) ∧ (∀ e ∈ post, is_send e = false)
      ∧ ∀ send : SendOracle,
          respond fs send method target version
            = pre ++ Event.send head (send 0 head) :: (body_events send body ++ post) := by
  by_cases hgate : method ≠ GET ∧ method ≠ OPTIONS
  · refine ⟨[Event.log method target version 405 0], response_405, none, [Event.close],
      by simp [is_send], by simp [is_send], ?_⟩
    intro send
    unfold respond
    rw [if_pos hgate]
    rfl
  · cases hcheck : (no_trailing_slash (sanitize target) && fs.is_dir (sanitize target))
    · cases hguard : has_dotdot (index_substitute (sanitize target))
      · cases hopen : fs.open_file (index_substitute (sanitize target)) with
        | none =>
          refine ⟨probe (sanitize target)
              ++ [Event.open_file (index_substitute (sanitize target)),
                Event.log method target version 404 0],
            response_404, none, [Event.close],
            no_send_append _ _ (probe_no_send _) (by simp [is_send]), by simp [is_send], ?_⟩
          intro send
          unfold respond
          rw [if_neg hgate]
          simp only [hcheck, hguard, hopen, Bool.false_eq_true, if_false, probe, body_events,
            List.append_assoc, List.cons_append, List.nil_append]
        | some file =>
          by_cases hopt : method = OPTIONS
          · refine ⟨probe (sanitize target)
                ++ [Event.open_file (index_substitute (sanitize target)),
                  Event.log method target version 204 0],
              response_204, none, [Event.close, Event.close_file],
              no_send_append _ _ (probe_no_send _) (by simp [is_send]),
              by simp [is_send], ?_⟩
            intro send
            unfold respond
            rw [if_neg hgate]
            simp only [hcheck, hguard, hopen, Bool.false_eq_true, if_false, if_pos hopt, probe,
              body_events, List.append_assoc, List.cons_append, List.nil_append]
          · refine ⟨probe (sanitize target)
                ++ [Event.open_file (index_substitute (sanitize target)),
                  Event.log method target version 200 file.tellg_end],
              header_200 file.tellg_end
                (get_content_type (index_substitute (sanitize target))),
              some file.data, [Event.close_file, Event.close],
              no_send_append _ _ (probe_no_send _) (by simp [is_send]),
              by simp [is_send], ?_⟩
            intro send
            unfold respond
            rw [if_neg hgate]
            simp only [hcheck, hguard, hopen, Bool.false_eq_true, if_false, if_neg hopt, probe,
              body_events, List.append_assoc, List.cons_append, List.nil_append]
      · refine ⟨probe (sanitize target) ++ [Event.log method target version 403 0],
          response_403, none, [Event.close],
          no_send_append _ _ (probe_no_send _) (by simp [is_send]), by simp [is_send], ?_⟩
        intro send
        unfold respond
        rw [if_neg hgate]
        simp only [hcheck, hguard, Bool.false_eq_true, if_false, if_true, probe, body_events,
          List.append_assoc, List.cons_append, List.nil_append]
    · refine ⟨[Event.stat (sanitize target)], response_301 (sanitize target), none,
        [Event.log method target version 301 0, Event.close],
        by simp [is_send], by simp [is_send], ?_⟩
      intro send
      unfold respond
      rw [if_neg hgate]
      simp only [hcheck, if_true]
      rfl

theorem sent_of_no_send (run : List Event) (h : ∀ e ∈ run, is_send e = false) :
    sent run = [] := by
  induction run with
  | nil => rfl
  | cons e rest ih =>
    have he := h e (List.mem_cons_self e rest)
    have hrest : ∀ x ∈ rest, is_send x = false := fun x hx => h x (List.mem_cons_of_mem e hx)
    cases e <;> first | simpa [sent] using ih hrest | exact absurd he (by simp [is_send])

theorem accepted_of_no_send (run : List Event) (h : ∀ e ∈ run, is_send e = false) :
    accepted run = [] := by
  induction run with
  | nil => rfl
  | cons e rest ih =>
    have he := h e (List.mem_cons_self e rest)
    have hrest : ∀ x ∈ rest, is_send x = false := fun x hx => h x (List.mem_cons_of_mem e hx)
    cases e <;> first | simpa [accepted] using ih hrest | exact absurd he (by simp [is_send])

theorem after_first_send_append (pre : List Event) (data : Bytes) (result : Int)
    (rest : List Event) (h : ∀ e ∈ pre, is_send e = false) :
    after_first_send (pre ++ Event.send data result :: rest) = rest := by
  induction pre with
  | nil => rfl
  | cons e tail ih =>
    have he := h e (List.mem_cons_self e tail)
    have htail : ∀ x ∈ tail, is_send x = false := fun x hx => h x (List.mem_cons_of_mem e hx)
    cases e <;>
      first
      | simpa [after_first_send] using ih htail
      | exact absurd he (by simp [is_send])

theorem body_events_sends (send : SendOracle) (body : Option Bytes) :
    ∀ e ∈ body_events send body, is_send e = true := by
  cases body with
  | none =>
    intro e he
    exact absurd he (List.not_mem_nil e)
  | some data => exact stream_file_sends send 1 data

theorem accepted_body_events (send : SendOracle) (hsend : well_behaved send)
    (body : Option Bytes) : accepted (body_events send body) = body.getD [] := by
  cases body with
  | none => rfl
  | some data =>
    exact accepted_stream_loop send hsend (data.length / CHUNK_SIZE + 1) 1 data (le_refl _)

theorem send_all_well_behaved : well_behaved send_all := by
  intro i offered hne
  cases offered with
  | nil => exact absurd rfl hne
  | cons c rest =>
    refine ⟨?_, le_refl _⟩
    show (0 : Int) < ((rest.length + 1 : Nat) : Int)
    omega

theorem send_one_well_behaved : well_behaved send_one := by
  intro i offered hne
  cases offered with
  | nil => exact absurd rfl hne
  | cons c rest =>
    refine ⟨show (0 : Int) < 1 by decide, ?_⟩
    show (1 : Int) ≤ ((rest.length + 1 : Nat) : Int)
    omega

/-- C15: two runs on the same request bytes and the same filesystem, over
sockets that may behave differently, hand the same status line and headers
to `send`, make the same filesystem lookups and log the same status and
size; when both sockets take a positive count within what is offered, the
body bytes they take are the same as well. -/
theorem response_deterministic (fs : FileSystem) (send1 send2 : SendOracle)
    (bytes_read : Int) (received : Bytes) :
    (sent (handle_client fs send1 bytes_read received)).head?
      = (sent (handle_client fs send2 bytes_read received)).head?
    ∧ lookups (handle_client fs send1 bytes_read received)
      = lookups (handle_client fs send2 bytes_read received)
    ∧ logs (handle_client fs send1 bytes_read received)
      = logs (handle_client fs send2 bytes_read received)
    ∧ (well_behaved send1 → well_behaved send2 →
        accepted (after_first_send (handle_client fs send1 bytes_read received))
          = accepted (after_first_send (handle_client fs send2 bytes_read received))) := by
  by_cases hread : bytes_read ≤ 0
  · have h1 : handle_client fs send1 bytes_read received = [Event.close] := by
      unfold handle_client
      rw [if_pos hread]
    have h2 : handle_client fs send2 bytes_read received = [Event.close] := by
      unfold handle_client
      rw [if_pos hread]
    rw [h1, h2]
    exact ⟨rfl, rfl, rfl, fun _ _ => rfl⟩
  · have hpos : 0 < bytes_read := not_le.mp hread
    obtain ⟨pre, head, body, post, hpre, hpost, hrun⟩ :=
      respond_shape fs (read_request received).method (read_request received).path
        (read_request received).http_version
    rw [handle_client_pos fs send1 bytes_read received hpos,
      handle_client_pos fs send2 bytes_read received hpos, hrun send1, hrun send2]
    refine ⟨?_, ?_, ?_, ?_⟩
    · rw [sent_append, sent_append, sent_of_no_send pre hpre]
      rfl
    · rw [lookups_append, lookups_append]
      simp only [lookups]
      rw [lookups_append, lookups_append,
        lookups_of_sends _ (body_events_sends send1 body),
        lookups_of_sends _ (body_events_sends send2 body)]
    · rw [logs_append, logs_append]
      simp only [logs]
      rw [logs_append, logs_append, logs_of_sends _ (body_events_sends send1 body),
        logs_of_sends _ (body_events_sends send2 body)]
    · intro hsend1 hsend2
      rw [after_first_send_append pre _ _ _ hpre, after_first_send_append pre _ _ _ hpre,
        accepted_append, accepted_append, accepted_body_events send1 hsend1,
        accepted_body_events send2 hsend2]

/-- Witness of C15: `GET /a.html` served over a socket that takes everything
at once and over one that takes a byte per call. -/
theorem response_deterministic_witness :
    accepted (after_first_send
        (handle_client page_fs send_all 22 "GET /a.html HTTP/1.1\r\n".toList))
      = accepted (after_first_send
        (handle_client page_fs send_one 22 "GET /a.html HTTP/1.1\r\n".toList))
    ∧ accepted (after_first_send
        (handle_client page_fs send_one 22 "GET /a.html HTTP/1.1\r\n".toList))
      = "abc".toList
    ∧ (sent (handle_client page_fs send_one 22 "GET /a.html HTTP/1.1\r\n".toList)).length = 4 :=
  ⟨(response_deterministic page_fs send_all send_one 22
      "GET /a.html HTTP/1.1\r\n".toList).2.2.2 send_all_well_behaved send_one_well_behaved,
   by decide, by decide⟩

/-- A `send` that fails on the first call of a chunk ends the inner loop
after that one call. -/
theorem send_chunk_first_fails (send : SendOracle) (fuel i : Nat) (chunk : Bytes)
    (hfuel : 0 < fuel) (hpos : 0 < chunk.length) (hfail : send i chunk ≤ 0) :
    send_chunk send fuel i chunk 0 = ([Event.send chunk (send i chunk)], i + 1) := by
  cases fuel with
  | zero => exact absurd hfuel (Nat.lt_irrefl 0)
  | succ fuel =>
    unfold send_chunk
    simp only [if_pos hpos, List.drop_zero, if_pos hfail]

/-- After a failed `send` on a full chunk the outer loop goes on: the rest
of the chunk is dropped and the next chunk is read and sent. -/
theorem stream_file_after_failure (send : SendOracle) (i : Nat) (data : Bytes)
    (hlen : CHUNK_SIZE ≤ data.length) (hfail : send i (data.take CHUNK_SIZE) ≤ 0) :
    stream_file send i data
      = Event.send (data.take CHUNK_SIZE) (send i (data.take CHUNK_SIZE))
        :: stream_file send (i + 1) (data.drop CHUNK_SIZE) := by
  have hsize : CHUNK_SIZE = 4096 := rfl
  have htake : (data.take CHUNK_SIZE).length = CHUNK_SIZE := by
    rw [List.length_take]
    omega
  have hpos : 0 < (data.take CHUNK_SIZE).length := by omega
  have hnotlast : ¬ (data.take CHUNK_SIZE).length < CHUNK_SIZE := by omega
  have hchunk := send_chunk_first_fails send (data.take CHUNK_SIZE).length i
    (data.take CHUNK_SIZE) hpos hpos hfail
  have hfuel : data.length / CHUNK_SIZE + 1
      = ((data.drop CHUNK_SIZE).length / CHUNK_SIZE + 1) + 1 := by
    rw [List.length_drop, hsize]
    rw [hsize] at hlen
    omega
  unfold stream_file
  rw [hfuel]
  conv_lhs => unfold stream_loop
  simp only [if_neg hnotlast, if_pos hpos, hchunk]
  rfl

/-- The streaming loop on a 4100-byte file when the first `send` of the body
reports -1: two `send` calls, the second one with the last four bytes. -/
theorem stream_file_failing_example :
    stream_file send_fail_first_body 1 (List.replicate 4096 'a' ++ "tail".toList)
      = [Event.send (List.replicate 4096 'a') (-1), Event.send "tail".toList 4] := by
  have hsize : CHUNK_SIZE = 4096 := rfl
  have htake : (List.replicate 4096 'a' ++ "tail".toList).take CHUNK_SIZE
      = List.replicate 4096 'a' := by
    rw [hsize]
    exact List.take_left' (List.length_replicate 4096 'a')
  have hdrop : (List.replicate 4096 'a' ++ "tail".toList).drop CHUNK_SIZE = "tail".toList := by
    rw [hsize]
    exact List.drop_left' (List.length_replicate 4096 'a')
  have hstep := stream_file_after_failure send_fail_first_body 1
    (List.replicate 4096 'a' ++ "tail".toList)
    (by rw [hsize, List.length_append, List.length_replicate]; omega)
    (by show (if (1 : Nat) = 1 then (-1 : Int) else _) ≤ 0
        rw [if_pos rfl]
        decide)
  rw [htake, hdrop] at hstep
  rw [hstep]
  have hfirst : send_fail_first_body 1 (List.replicate 4096 'a') = -1 := rfl
  have hrest : stream_file send_fail_first_body (1 + 1) "tail".toList
      = [Event.send "tail".toList 4] := by decide
  rw [hfirst, hrest]

/-- C16 (code at the failing input): `GET /big` on a 4100-byte file, the
first `send` of the body reporting -1. The inner `break` drops the rest of
the first chunk, but the outer loop reads on: the last four bytes of the
file are passed to `send` after the failed call. -/
theorem later_chunk_sent_after_failure :
    handle_client big_fs send_fail_first_body 19 "GET /big HTTP/1.1\r\n".toList
      = [Event.stat "big".toList, Event.open_file "big".toList,
         Event.log "GET".toList "/big".toList "HTTP/1.1".toList 200 4100,
         Event.send
           "HTTP/1.1 200 OK\r\nContent-Length: 4100\r\nContent-Type: application/octet-stream\r\n\r\n".toList
           81,
         Event.send (List.replicate 4096 'a') (-1),
         Event.send "tail".toList 4,
         Event.close_file, Event.close] := by
  have hreq : read_request "GET /big HTTP/1.1\r\n".toList
      = { method := "GET".toList, path := "/big".toList, http_version := "HTTP/1.1".toList } := by
    decide
  have hpath : index_substitute (sanitize "/big".toList) = "big".toList := by decide
  have hprobe : probe (sanitize "/big".toList) = [Event.stat "big".toList] := by decide
  have htype : get_content_type "big".toList = "application/octet-stream".toList := by decide
  have hheader : header_200 4100 "application/octet-stream".toList
      = "HTTP/1.1 200 OK\r\nContent-Length: 4100\r\nContent-Type: application/octet-stream\r\n\r\n".toList := by
    decide
  have hresult : send_fail_first_body 0
      "HTTP/1.1 200 OK\r\nContent-Length: 4100\r\nContent-Type: application/octet-stream\r\n\r\n".toList
      = 81 := by decide
  have hopen : big_fs.open_file "big".toList
      = some { tellg_end := 4100, data := List.replicate 4096 'a' ++ "tail".toList } := rfl
  have hrun := respond_at_open big_fs send_fail_first_body "GET".toList "/big".toList
    "HTTP/1.1".toList (Or.inl rfl) (fun _ => rfl) (by decide)
  rw [hpath, hprobe, hopen] at hrun
  have hnotopt : ¬ ("GET".toList = OPTIONS) := by decide
  simp only [if_neg hnotopt, htype, hheader, hresult, stream_file_failing_example] at hrun
  rw [handle_client_pos _ _ _ _ (by decide), hreq, hrun]
  rfl

/-- `has_dotdot` is the substring test for `..`. -/
theorem has_dotdot_iff_substring (path : Bytes) :
    has_dotdot path = true ↔ ['.', '.'] <:+: path := by
  induction path with
  | nil =>
    constructor
    · intro h
      exact absurd h (by decide)
    · intro h
      have := List.eq_nil_of_infix_nil h
      exact absurd this (by decide)
  | cons c rest ih =>
    cases rest with
    | nil =>
      constructor
      · intro h
        exact absurd h (by simp [has_dotdot])
      · rintro ⟨s, t, hst⟩
        have hlen := congrArg List.length hst
        simp only [List.length_append, List.length_cons, List.length_nil] at hlen
        omega
    | cons d rest2 =>
      have hstep : has_dotdot (c :: d :: rest2)
          = ((c = '.' && d = '.') || has_dotdot (d :: rest2)) := by
        simp [has_dotdot]
      rw [hstep]
      constructor
      · intro h
        rcases Bool.or_eq_true_iff.mp h with h1 | h2
        · have hc : c = '.' ∧ d = '.' := by simpa using h1
          rw [hc.1, hc.2]
          exact ⟨[], rest2, rfl⟩
        · exact (ih.mp h2).trans (List.infix_cons (List.infix_refl _))
      · rintro ⟨s, t, hst⟩
        cases s with
        | nil =>
          have hhead : c = '.' ∧ d = '.' := by
            simp only [List.nil_append, List.cons_append, List.cons.injEq] at hst
            exact ⟨hst.1.symm, hst.2.1.symm⟩
          simp [hhead.1, hhead.2]
        | cons x s2 =>
          have htail : s2 ++ ['.', '.'] ++ t = d :: rest2 := by
            simp only [List.cons_append, List.cons.injEq] at hst
            simpa using hst.2
          have hsub : ['.', '.'] <:+: d :: rest2 := ⟨s2, t, htail⟩
          rw [ih.mpr hsub]
          simp

theorem index_substitute_cases (path : Bytes) :
    (index_substitute path = path ∧ path ≠ [])
    ∨ index_substitute path = path ++ "index.html".toList := by
  unfold index_substitute
  by_cases h : (path.isEmpty || path.getLast? == some '/') = true
  · right
    rw [if_pos h]
  · left
    rw [if_neg h]
    refine ⟨rfl, ?_⟩
    intro hnil
    rw [hnil] at h
    exact h rfl

/-- The resolved path is never empty, never begins with `/` and holds
neither `?` nor `#`. -/
theorem resolved_path_shape (target : Bytes) :
    index_substitute (sanitize target) ≠ []
    ∧ (index_substitute (sanitize target)).head? ≠ some '/'
    ∧ '?' ∉ index_substitute (sanitize target)
    ∧ '#' ∉ index_substitute (sanitize target) := by
  have hhead := strip_leading_slashes_head (cut_at (cut_at target '?') '#')
  have hclean := sanitize_no_query_fragment target
  change (sanitize target).head? ≠ some '/' at hhead
  rcases index_substitute_cases (sanitize target) with ⟨heq, hne⟩ | heq
  · rw [heq]
    exact ⟨hne, hhead, hclean.1, hclean.2⟩
  · rw [heq]
    refine ⟨?_, ?_, ?_, ?_⟩
    · intro h
      have hlen := congrArg List.length h
      rw [List.length_append] at hlen
      have : "index.html".toList.length = 10 := rfl
      simp only [List.length_nil] at hlen
      omega
    · cases hs : sanitize target with
      | nil => decide
      | cons c rest =>
        rw [hs] at hhead
        simpa using hhead
    · intro h
      rcases List.mem_append.mp h with h1 | h2
      · exact hclean.1 h1
      · exact absurd h2 (by decide)
    · intro h
      rcases List.mem_append.mp h with h1 | h2
      · exact hclean.2 h1
      · exact absurd h2 (by decide)

theorem open_file_not_mem_probe (path p : Bytes) : Event.open_file path ∉ probe p := by
  intro h
  unfold probe at h
  split at h
  · simp at h
  · exact absurd h (List.not_mem_nil _)

theorem open_file_not_mem_sends (path : Bytes) (run : List Event)
    (h : ∀ e ∈ run, is_send e = true) : Event.open_file path ∉ run := by
  intro hm
  exact absurd (h _ hm) (by simp [is_send])

/-- The only path handed to the file open is the resolved path, and only
after the traversal guard has found no `..` in it. -/
theorem open_file_mem_respond (fs : FileSystem) (send : SendOracle)
    (method target version path : Bytes)
    (hmem : Event.open_file path ∈ respond fs send method target version) :
    path = index_substitute (sanitize target) ∧ has_dotdot path = false := by
  rcases respond_cases fs send method target version with
    ⟨_, hrun⟩ | ⟨_, _, hrun⟩ | ⟨_, hrun⟩ | ⟨hguard, _, hrun⟩ | ⟨hguard, _, _, hrun⟩
      | ⟨hguard, _, file, _, hrun⟩
  · rw [hrun] at hmem
    simp at hmem
  · rw [hrun] at hmem
    simp at hmem
  · rw [hrun] at hmem
    rcases List.mem_append.mp hmem with h | h
    · exact absurd h (open_file_not_mem_probe _ _)
    · simp at h
  · rw [hrun] at hmem
    rcases List.mem_append.mp hmem with h | h
    · exact absurd h (open_file_not_mem_probe _ _)
    · have hp : path = index_substitute (sanitize target) := by simpa using h
      rw [hp]
      exact ⟨rfl, hguard⟩
  · rw [hrun] at hmem
    rcases List.mem_append.mp hmem with h | h
    · exact absurd h (open_file_not_mem_probe _ _)
    · have hp : path = index_substitute (sanitize target) := by simpa using h
      rw [hp]
      exact ⟨rfl, hguard⟩
  · rw [hrun] at hmem
    rcases List.mem_append.mp hmem with h | h
    · rcases List.mem_append.mp h with h | h
      · rcases List.mem_append.mp h with h | h
        · exact absurd h (open_file_not_mem_probe _ _)
        · have hp : path = index_substitute (sanitize target) := by simpa using h
          rw [hp]
          exact ⟨rfl, hguard⟩
      · exact absurd h (open_file_not_mem_sends _ _ (stream_file_sends send 1 file.data))
    · simp at h

/-- C18: every path that a run hands to the file open is non-empty, does not
begin with `/`, does not contain the substring `..` and holds neither `?`
nor `#`, for any bytes read, filesystem and socket. -/
theorem opened_path_is_safe (fs : FileSystem) (send : SendOracle) (bytes_read : Int)
    (received path : Bytes)
    (hopen : Event.open_file path ∈ handle_client fs send bytes_read received) :
    path ≠ [] ∧ path.head? ≠ some '/' ∧ ¬ (['.', '.'] <:+: path)
    ∧ '?' ∉ path ∧ '#' ∉ path := by
  by_cases hread : bytes_read ≤ 0
  · have hrun : handle_client fs send bytes_read received = [Event.close] := by
      unfold handle_client
      rw [if_pos hread]
    rw [hrun] at hopen
    simp at hopen
  · rw [handle_client_pos fs send bytes_read received (not_le.mp hread)] at hopen
    obtain ⟨hpath, hguard⟩ := open_file_mem_respond fs send _ _ _ path hopen
    have hshape := resolved_path_shape (read_request received).path
    rw [← hpath] at hshape
    refine ⟨hshape.1, hshape.2.1, ?_, hshape.2.2.1, hshape.2.2.2⟩
    intro hsub
    have := (has_dotdot_iff_substring path).mpr hsub
    rw [hguard] at this
    exact absurd this (by decide)

/-- Witness of C18: the run of `GET //a.html?x=1#y` opens `a.html`. -/
theorem opened_path_is_safe_witness :
    Event.open_file "a.html".toList
      ∈ handle_client page_fs send_all 29 "GET //a.html?x=1#y HTTP/1.1\r\n".toList
    ∧ "a.html".toList ≠ [] ∧ "a.html".toList.head? ≠ some '/'
    ∧ ¬ (['.', '.'] <:+: "a.html".toList)
    ∧ '?' ∉ "a.html".toList ∧ '#' ∉ "a.html".toList :=
  ⟨by decide,
   opened_path_is_safe page_fs send_all 29 "GET //a.html?x=1#y HTTP/1.1\r\n".toList
     "a.html".toList (by decide)⟩

theorem response_301_location (path : Bytes) :
    response_301 path
      = "HTTP/1.1 301 Moved Permanently\r\nLocation: ".toList ++ new_location path
          ++ "\r\nContent-Length: 0\r\n\r\n".toList := by
  simp only [response_301, new_location, List.append_assoc]
  rfl

theorem response_301_injective (p q : Bytes) (h : response_301 p = response_301 q) : p = q := by
  rw [response_301_eq, response_301_eq, List.append_assoc, List.append_assoc] at h
  exact List.append_cancel_right (List.append_cancel_left h)

/-- No other response of the handler is a 301 response. -/
theorem not_response_301 (q response : Bytes)
    (hstart : ¬ (("HTTP/1.1 ".toList ++ Nat.toDigits 10 301 ++ " ".toList) <+: response)) :
    response ≠ response_301 q := by
  intro h
  rw [h] at hstart
  exact hstart (status_prefix_301 q)

theorem header_200_not_301 (file_size : Int) (content_type : Bytes) :
    ¬ (("HTTP/1.1 ".toList ++ Nat.toDigits 10 301 ++ " ".toList)
      <+: header_200 file_size content_type) := by
  intro h
  have h200 := status_prefix_200 file_size content_type
  have heq := List.prefix_of_prefix_length_le h h200 (by decide)
  exact absurd (List.IsPrefix.eq_of_length heq (by decide)) (by decide)

/-- The head of a run's response is a 301 response only on the redirect
path, and then it is the one for the sanitized path, which is non-empty and
does not end in `/`. -/
theorem sent_head_301 (fs : FileSystem) (send : SendOracle) (method target version q : Bytes)
    (h301 : (sent (respond fs send method target version)).head? = some (response_301 q)) :
    q = sanitize target ∧ no_trailing_slash (sanitize target) = true := by
  rcases respond_cases fs send method target version with
    ⟨_, hrun⟩ | ⟨hslash, _, hrun⟩ | ⟨_, hrun⟩ | ⟨_, _, hrun⟩ | ⟨_, _, _, hrun⟩
      | ⟨_, _, file, _, hrun⟩
  · rw [hrun] at h301
    exact absurd (Option.some.inj h301) (not_response_301 q _ (by decide))
  · rw [hrun] at h301
    exact ⟨(response_301_injective _ _ (Option.some.inj h301)).symm, hslash⟩
  · rw [hrun, sent_append, sent_probe] at h301
    exact absurd (Option.some.inj h301) (not_response_301 q _ (by decide))
  · rw [hrun, sent_append, sent_probe] at h301
    exact absurd (Option.some.inj h301) (not_response_301 q _ (by decide))
  · rw [hrun, sent_append, sent_probe] at h301
    exact absurd (Option.some.inj h301) (not_response_301 q _ (by decide))
  · rw [hrun, List.append_assoc, List.append_assoc, sent_append, sent_probe] at h301
    exact absurd (Option.some.inj h301) (not_response_301 q _ (header_200_not_301 _ _))

/-- C19: whenever a run answers with a 301 response, its `Location` value is
`/` followed by the sanitized path and `/`; it begins with exactly one `/`
(the next character is not `/`) and ends with exactly one `/` (the character
before it is not `/`), whatever the number of leading slashes of the target. -/
theorem redirect_location_single_slashes (fs : FileSystem) (send : SendOracle)
    (bytes_read : Int) (received q : Bytes)
    (h301 : (sent (handle_client fs send bytes_read received)).head?
      = some (response_301 q)) :
    q = sanitize (read_request received).path
    ∧ response_301 q
      = "HTTP/1.1 301 Moved Permanently\r\nLocation: ".toList ++ new_location q
          ++ "\r\nContent-Length: 0\r\n\r\n".toList
    ∧ (∃ (c : Char) (rest : Bytes), new_location q = '/' :: c :: rest ∧ c ≠ '/')
    ∧ (∃ (init : Bytes) (c : Char), new_location q = init ++ [c, '/'] ∧ c ≠ '/') := by
  by_cases hread : bytes_read ≤ 0
  · have hrun : handle_client fs send bytes_read received = [Event.close] := by
      unfold handle_client
      rw [if_pos hread]
    rw [hrun] at h301
    exact absurd h301 (by simp [sent])
  · rw [handle_client_pos fs send bytes_read received (not_le.mp hread)] at h301
    obtain ⟨hq, hslash⟩ := sent_head_301 fs send _ _ _ q h301
    have hhead := strip_leading_slashes_head
      (cut_at (cut_at (read_request received).path '?') '#')
    change (sanitize (read_request received).path).head? ≠ some '/' at hhead
    rw [← hq] at hslash hhead
    refine ⟨hq, response_301_location q, ?_, ?_⟩
    · cases q with
      | nil => exact absurd hslash (by decide)
      | cons c rest =>
        refine ⟨c, rest ++ "/".toList, rfl, ?_⟩
        simpa using hhead
    · have hne : q ≠ [] := by
        intro h
        rw [h] at hslash
        exact absurd hslash (by decide)
      have hlast : q.getLast? ≠ some '/' := by
        intro h
        simp [no_trailing_slash, h] at hslash
      refine ⟨'/' :: q.dropLast, q.getLast hne, ?_, ?_⟩
      · have hsplit : q = q.dropLast ++ [q.getLast hne] :=
          (List.dropLast_append_getLast hne).symm
        conv_lhs => rw [hsplit]
        simp [new_location]
      · intro h
        apply hlast
        rw [List.getLast?_eq_getLast q hne, h]

/-- Witness of C19: `GET //host/dir` with a directory `host/dir` is
redirected to `/host/dir/`, not to `//host/dir/`. -/
theorem redirect_location_single_slashes_witness :
    sent (handle_client host_dir_fs send_all 25 "GET //host/dir HTTP/1.1\r\n".toList)
      = [response_301 "host/dir".toList]
    ∧ new_location "host/dir".toList = "/host/dir/".toList
    ∧ (∃ (c : Char) (rest : Bytes),
        new_location "host/dir".toList = '/' :: c :: rest ∧ c ≠ '/') :=
  ⟨by decide, by decide,
   (redirect_location_single_slashes host_dir_fs send_all 25
      "GET //host/dir HTTP/1.1\r\n".toList "host/dir".toList (by decide)).2.2.1⟩

theorem stream_loop_reads_fst (send : SendOracle) :
    ∀ (fuel i : Nat) (rest : Bytes),
      (stream_loop_reads send fuel i rest).1 = stream_loop send fuel i rest := by
  intro fuel
  induction fuel with
  | zero =>
    intro i rest
    rfl
  | succ fuel ih =>
    intro i rest
    unfold stream_loop_reads stream_loop
    by_cases hlast : (rest.take CHUNK_SIZE).length < CHUNK_SIZE
    · simp only [if_pos hlast]
    · simp only [if_neg hlast, ih]

/-- The outer loop makes `length / CHUNK_SIZE + 1` reads, whatever `send`
returns and however much fuel is left over. -/
theorem stream_loop_reads_count (send : SendOracle) :
    ∀ (fuel i : Nat) (rest : Bytes), rest.length / CHUNK_SIZE + 1 ≤ fuel →
      (stream_loop_reads send fuel i rest).2 = rest.length / CHUNK_SIZE + 1 := by
  intro fuel
  induction fuel with
  | zero =>
    intro i rest hfuel
    exact absurd hfuel (Nat.not_succ_le_zero _)
  | succ fuel ih =>
    intro i rest hfuel
    have hsize : CHUNK_SIZE = 4096 := rfl
    rw [hsize] at hfuel
    unfold stream_loop_reads
    by_cases hlast : (rest.take CHUNK_SIZE).length < CHUNK_SIZE
    · simp only [if_pos hlast]
      rw [List.length_take, hsize] at hlast
      rw [hsize]
      omega
    · simp only [if_neg hlast]
      rw [List.length_take, hsize] at hlast
      rw [ih _ (rest.drop CHUNK_SIZE) (by rw [List.length_drop, hsize]; omega),
        List.length_drop, hsize]
      omega

/-- The inner loop makes at most as many `send` calls as bytes remain in the
chunk, whatever `send` returns. -/
theorem send_chunk_length (send : SendOracle) :
    ∀ (fuel i : Nat) (chunk : Bytes) (sent_total : Nat),
      (send_chunk send fuel i chunk sent_total).1.length ≤ chunk.length - sent_total := by
  intro fuel
  induction fuel with
  | zero =>
    intro i chunk sent_total
    simp [send_chunk]
  | succ fuel ih =>
    intro i chunk sent_total
    unfold send_chunk
    by_cases hlt : sent_total < chunk.length
    · by_cases hfail : send i (chunk.drop sent_total) ≤ 0
      · simp only [if_pos hlt, if_pos hfail, List.length_singleton]
        omega
      · simp only [if_pos hlt, if_neg hfail, List.length_cons]
        have hstep : 0 < (send i (chunk.drop sent_total)).toNat := by omega
        have hrec := ih (i + 1) chunk (sent_total + (send i (chunk.drop sent_total)).toNat)
        omega
    · simp [if_neg hlt]

/-- C20: the streaming loop ends for every file and every `send` behaviour.
The outer loop makes `length / 4096 + 1` chunk reads and more fuel changes
nothing; the inner loop makes at most as many `send` calls as the chunk has
bytes and fuel beyond the chunk length changes nothing. -/
theorem streaming_terminates (send : SendOracle) (i : Nat) (data : Bytes) :
    (∀ fuel : Nat, data.length / CHUNK_SIZE + 1 ≤ fuel →
      stream_loop send fuel i data = stream_loop send (data.length / CHUNK_SIZE + 1) i data
      ∧ (stream_loop_reads send fuel i data).2 = data.length / 4096 + 1)
    ∧ (∀ fuel : Nat, (stream_loop_reads send fuel i data).1 = stream_loop send fuel i data)
    ∧ (∀ (fuel j : Nat) (chunk : Bytes), chunk.length ≤ fuel →
      send_chunk send fuel j chunk 0 = send_chunk send chunk.length j chunk 0
      ∧ (send_chunk send fuel j chunk 0).1.length ≤ chunk.length) := by
  refine ⟨?_, fun fuel => stream_loop_reads_fst send fuel i data, ?_⟩
  · intro fuel hfuel
    exact ⟨stream_loop_fuel send fuel _ i data hfuel (le_refl _),
      stream_loop_reads_count send fuel i data hfuel⟩
  · intro fuel j chunk hfuel
    refine ⟨send_chunk_fuel send fuel chunk.length j chunk 0 (by omega) (by omega), ?_⟩
    have := send_chunk_length send fuel j chunk 0
    omega

/-- Witness of C20: a five-byte file over a socket taking one byte per call:
one chunk read and five `send` calls, with any amount of spare fuel. -/
theorem streaming_terminates_witness :
    (stream_loop_reads send_one 7 1 "hello".toList).2 = "hello".toList.length / 4096 + 1
    ∧ (send_chunk send_one 9 1 "hello".toList 0).1.length ≤ "hello".toList.length
    ∧ (send_chunk send_one 5 1 "hello".toList 0).1.length = 5 :=
  ⟨((streaming_terminates send_one 1 "hello".toList).1 7 (by decide)).2,
   ((streaming_terminates send_one 1 "hello".toList).2.2 9 1 "hello".toList (by decide)).2,
   by decide⟩

end HttpServer
